import Mathlib

/-!
# PgBouncer `src/util.c`: a shallow embedding and its properties

Conventions of the embedding.

* C strings are lists of byte values (`List Nat`) holding the characters in
  front of the terminating NUL; reading a string at its length yields the
  terminator `0`.  Pointers into a string or buffer are offsets (`Nat`), and a
  buffer is the list of its bytes.  `strlen` results are taken to fit an `int`.
* Loops written with `goto loop` or `for` become recursive functions.  The loop
  of `strlist_contains` has no bound of its own, so it takes a step budget and
  answers `none` when the budget runs out.  The retry loops of the `safe_*`
  wrappers consume one scripted kernel outcome per pass.
* The kernel is an oracle (`World.script`); every system call and every log
  line is recorded in `World.trace`.  The calls `_log_write` makes on the log
  sinks take their outcomes from a script of their own (`World.sink`), where a
  call that is not scripted succeeds; a failing sink call sets `errno`.
* Declarations that live in headers outside `src/util.c` (`bouncer.h`, `md5.h`,
  the system headers) are parameters or are modelled where they are used; each
  such definition says so.
-/

namespace PgBouncer

/-! ## C library: characters and strings -/

/-- The byte at offset `i` of a C string; the terminator `0` at and past the end. -/
def charAt (s : List Nat) (i : Nat) : Nat := s.getD i 0

/-- The `isspace` of `<ctype.h>` in the "C" locale: space, `\t`, `\n`, `\v`, `\f`, `\r`. -/
def isspace (c : Nat) : Bool := c == 32 || (9 ≤ c && c ≤ 13)

/-- The comma character `','`. -/
def COMMA : Nat := 44

/-- The `strstr` of `<string.h>` on the tail `hay` of a string that starts at offset `i`:
the offset of the first occurrence of `needle`, or `none` (NULL). -/
def strstrFrom (needle : List Nat) : List Nat → Nat → Option Nat
  | [], i => if needle.isPrefixOf [] then some i else none
  | c :: cs, i => if needle.isPrefixOf (c :: cs) then some i else strstrFrom needle cs (i + 1)

/-- The call `strstr(liststr + pos, needle)`, with pointers as offsets into `liststr`. -/
def strstr (liststr : List Nat) (pos : Nat) (needle : List Nat) : Option Nat :=
  strstrFrom needle (liststr.drop pos) pos

/-! ## `strlist_contains` -/

/-- The body of `strlist_contains` from the label `loop:` on, `listpos` being the
offset of the pointer of that name; one unit of `fuel` is used per pass. -/
def strlist_contains_loop (liststr str : List Nat) : Nat → Nat → Option Bool
  | 0, _ => none
  | fuel + 1, listpos =>
    match strstr liststr listpos str with
    | none => some false
    | some p =>
      let len := str.length
      let listpos1 := p + len
      let listpos2 := if charAt liststr listpos1 ≠ 0 then listpos1 + 1 else listpos1
      if 0 < p ∧ ¬ (isspace (charAt liststr (p - 1)) = true) ∧ charAt liststr (p - 1) ≠ COMMA then
        strlist_contains_loop liststr str fuel listpos2
      else
        let c := charAt liststr (p + len)
        if c ≠ 0 ∧ ¬ (isspace c = true) ∧ c ≠ COMMA then
          strlist_contains_loop liststr str fuel listpos2
        else some true

/-- The function `strlist_contains(liststr, str)` run for at most `fuel` passes of its loop. -/
def strlist_contains (fuel : Nat) (liststr str : List Nat) : Option Bool :=
  strlist_contains_loop liststr str fuel 0

/-- A separator of the list: a comma or a whitespace character. -/
def isDelim (c : Nat) : Bool := isspace c || c == COMMA

/-- The token `tok` occurs in `list` at offset `i` as a whole token: the characters
from `i` on spell `tok`, the character before is the start of the list or a
separator, and the character after is the end of the list or a separator. -/
def TokenAt (list tok : List Nat) (i : Nat) : Prop :=
  tok <+: list.drop i ∧
  (i = 0 ∨ isDelim (charAt list (i - 1)) = true) ∧
  (i + tok.length = list.length ∨ isDelim (charAt list (i + tok.length)) = true)

/-- A well-formed C string body: no NUL inside. -/
def IsCStr (s : List Nat) : Prop := ∀ c ∈ s, c ≠ 0

instance instDecidableIsCStr (s : List Nat) : Decidable (IsCStr s) := by
  unfold IsCStr
  infer_instance

/-- The bytes of an ASCII string literal. -/
def bytes (s : String) : List Nat := s.toList.map Char.toNat

instance instDecidableTokenAt (list tok : List Nat) (i : Nat) : Decidable (TokenAt list tok i) := by
  unfold TokenAt
  infer_instance

/-! ## The process and its operating system

The kernel is an oracle: `World.script` lists the outcomes of the system calls
still to come, in the order the process will make them.  Every call made and
every line logged is appended to `World.trace`. -/

/-- The `EINTR` of `<errno.h>` (Linux numbering). -/
def EINTR : Nat := 4

/-- The `EMSGSIZE` of `<errno.h>` (Linux numbering). -/
def EMSGSIZE : Nat := 90

/-- The outcome of one system call: its return value, the `errno` it leaves when
that value is negative, and the bytes it stores through its output buffer. -/
structure SysRes where
  res : Int
  errno : Nat
  data : List Nat
deriving DecidableEq, Repr

inductive FcntlCmd
  | F_SETFD | F_GETFL | F_SETFL
deriving DecidableEq, Repr

inductive SockOpt
  | SO_NOSIGPIPE | SO_KEEPALIVE | TCP_KEEPCNT | TCP_KEEPIDLE | TCP_KEEPINTVL
  | TCP_KEEPALIVE | SO_SNDBUF | SO_RCVBUF | TCP_NODELAY
deriving DecidableEq, Repr

/-- A system call with its arguments; pointers are addresses. -/
inductive Call
  | read (fd : Int) (buf : Nat) (len : Int)
  | write (fd : Int) (buf : Nat) (len : Int)
  | recv (fd : Int) (buf : Nat) (len : Int) (flags : Int)
  | send (fd : Int) (buf : Nat) (len : Int) (flags : Int)
  | close (fd : Int)
  | recvmsg (fd : Int) (msg : Nat) (flags : Int)
  | sendmsg (fd : Int) (msg : Nat) (flags : Int)
  | fcntl (fd : Int) (cmd : FcntlCmd) (arg : Int)
  | setsockopt (fd : Int) (opt : SockOpt) (val : Int)
  | stat (fn : Nat)
  | openRdonly (fn : Nat)
deriving DecidableEq, Repr

/-- An argument of a log format. -/
inductive LogArg
  | str (s : String)
  | num (n : Int)
  | strerror (errno : Nat)
deriving DecidableEq, Repr

/-- What the process does that is visible from outside. -/
inductive Event
  | call (c : Call)
  | log (pfx : String) (fmt : String) (args : List LogArg)
  | sleep (sec usec : Nat)
  | exit (status : Int)
deriving DecidableEq, Repr

/-- The process-wide configuration read by `util.c` (the `cf_*` globals);
`cf_logfile` says whether a log file is configured (the pointer is not NULL). -/
structure Config where
  cf_verbose : Int
  cf_tcp_keepalive : Int
  cf_tcp_keepcnt : Int
  cf_tcp_keepidle : Int
  cf_tcp_keepintvl : Int
  cf_tcp_socket_buffer : Int
  cf_logfile : Bool
  cf_daemon : Bool
deriving DecidableEq, Repr

/-- The state of the process and of the kernel around it: the outcomes of the
system calls still to come (`script`), `errno`, what has happened so far
(`trace`), the configuration, and the outcomes of the calls the log sinks will
make (`sink`, see `_log_write`). -/
structure World where
  script : List SysRes
  errno : Nat
  trace : List Event
  cf : Config
  sink : List SysRes
deriving DecidableEq, Repr

/-- How a call into `util.c` ends: it returns, it never returns because the
kernel has no further outcome scripted, or the process has exited. -/
inductive Outcome (α : Type) where
  | ret (a : α) (w : World)
  | blocked (w : World)
  | exited (status : Int) (w : World)
deriving DecidableEq, Repr

/-- The world at the end of a call. -/
def Outcome.world {α : Type} : Outcome α → World
  | .ret _ w => w
  | .blocked w => w
  | .exited _ w => w

/-- Sequencing of C statements. -/
def Outcome.bind {α β : Type} (o : Outcome α) (f : α → World → Outcome β) : Outcome β :=
  match o with
  | .ret a w => f a w
  | .blocked w => .blocked w
  | .exited s w => .exited s w

/-- The kernel performs call `c` with outcome `r`: the call is traced and a
failure sets `errno`. -/
def sys (c : Call) (r : SysRes) (w : World) : World :=
  ⟨w.script, if r.res < 0 then r.errno else w.errno, w.trace ++ [Event.call c], w.cf, w.sink⟩

/-- A system call made outside a retry loop takes the next scripted outcome. -/
def syscall (c : Call) (w : World) : Outcome SysRes :=
  match w.script with
  | [] => .blocked w
  | r :: rest => .ret r (sys c r ⟨rest, w.errno, w.trace, w.cf, w.sink⟩)

/-- The system calls of a trace, in order. -/
def callsOf (t : List Event) : List Call :=
  t.filterMap fun e => match e with
    | .call c => some c
    | _ => none

/-- The number of sleeps in a trace. -/
def sleepsOf (t : List Event) : Nat :=
  (t.filter fun e => match e with
    | .sleep _ _ => true
    | _ => false).length

/-- The bytes a call stored at the start of a buffer. -/
def store (buf data : List Nat) : List Nat := data ++ buf.drop data.length

/-- A configuration with every knob at zero: no log file, not a daemon. -/
def cf_zero : Config := ⟨0, 0, 0, 0, 0, 0, false, false⟩

/-- A failure with `EINTR`. -/
def eintr : SysRes := ⟨-1, EINTR, []⟩

/-- A failure with `EMSGSIZE`. -/
def emsgsize : SysRes := ⟨-1, EMSGSIZE, []⟩

/-- The `EACCES` of `<errno.h>` (Linux numbering). -/
def EACCES : Nat := 13

/-- A daemon that logs to a file. -/
def cf_logging : Config := ⟨0, 0, 0, 0, 0, 0, true, true⟩

/-- A kernel that answers every `sendmsg` with `EMSGSIZE` while the log file
cannot be opened: the `open` of the first log line fails with `EACCES`. -/
def world_log_unwritable : World :=
  ⟨List.replicate 21 emsgsize, 0, [], cf_logging, [⟨-1, EACCES, []⟩]⟩

/-! ## Logging -/

/-- The outcome of the next call a log sink makes: the head of the sink script,
or a success when nothing more is scripted. -/
def sink_next : List SysRes → SysRes × List SysRes
  | [] => (⟨1, 0, []⟩, [])
  | r :: rest => (r, rest)

/-- The `errno` after a call with outcome `r`: a failure sets it. -/
def errno_after (r : SysRes) (errno : Nat) : Nat := if r.res < 0 then r.errno else errno

/-- The loop of `safe_write` and of `safe_close` when `_log_write` calls them:
the call is repeated while it fails with `EINTR`.  The outcomes come from the
sink script; the result is the `errno` left behind and the rest of the script.
It agrees with `safe_write_loop` and `safe_close_loop` wherever those return
(`sink_retry_eq_safe_write_loop`, `sink_retry_eq_safe_close_loop`). -/
def sink_retry : List SysRes → Nat → Nat × List SysRes
  | [], errno => (errno, [])
  | r :: rest, errno =>
    if r.res < 0 ∧ errno_after r errno = EINTR then sink_retry rest (errno_after r errno)
    else (errno_after r errno, rest)

/-- The function `_log_write(pfx, msg)`: the line is rendered (one `Event.log` of
the trace) and sent to the sinks.  With a log file configured the file is
opened, and if `fd > 0` the line is written with `safe_write` and the file closed
with `safe_close`; unless the process is a daemon the line is printed to stderr
with `fprintf`.  Each of these calls takes its outcome from `World.sink` and a
failing one sets `errno`; they are not listed among the calls of the trace. -/
def _log_write (pfx fmt : String) (args : List LogArg) (w : World) : World :=
  let s1 : Nat × List SysRes :=
    if w.cf.cf_logfile = true then
      let o := sink_next w.sink
      let fd := o.1.res
      let e1 := errno_after o.1 w.errno
      if fd > 0 then
        let s2 := sink_retry o.2 e1
        sink_retry s2.2 s2.1
      else (e1, o.2)
    else (w.errno, w.sink)
  let s3 : Nat × List SysRes :=
    if w.cf.cf_daemon = true then s1
    else
      let o := sink_next s1.2
      (errno_after o.1 s1.1, o.2)
  ⟨w.script, s3.1, w.trace ++ [Event.log pfx fmt args], w.cf, s3.2⟩

/-- The function `_log(pfx, fmt, ap)`: the message is formatted and handed to
`_log_write`. -/
def _log (pfx fmt : String) (args : List LogArg) (w : World) : World :=
  _log_write pfx fmt args w

/-- The function `log_level(pfx, fmt, ...)`. -/
def log_level (pfx fmt : String) (args : List LogArg) (w : World) : World :=
  _log pfx fmt args w

/-- Every scripted call of the log sinks succeeds. -/
def SinkOk (sink : List SysRes) : Prop := ∀ r ∈ sink, 0 ≤ r.res

instance instDecidableSinkOk (sink : List SysRes) : Decidable (SinkOk sink) := by
  unfold SinkOk
  infer_instance

/-- Modelled from the spec: the macro `log_noise` of `bouncer.h`, which is not in
the sources; it logs a trace line through `log_level`. -/
def log_noise (fmt : String) (args : List LogArg) (w : World) : World :=
  log_level "NOISE" fmt args w

/-- Modelled from the spec: the macro `log_warning` of `bouncer.h`, which is not
in the sources; it logs a warning through `log_level`. -/
def log_warning (fmt : String) (args : List LogArg) (w : World) : World :=
  log_level "WARNING" fmt args w

/-- Modelled from the spec: the macro `log_error` of `bouncer.h`, which is not in
the sources; it logs an error line through `log_level`. -/
def log_error (fmt : String) (args : List LogArg) (w : World) : World :=
  log_level "ERROR" fmt args w

/-- The function `_fatal(file, line, func, do_exit, fmt, ...)`: the source location
goes in front of the message, the line is logged as FATAL, and the process
exits with status 1 only when `do_exit` is set. -/
def _fatal (file : String) (line : Int) (func : String) (do_exit : Bool) (fmt : String)
    (args : List LogArg) (w : World) : Outcome Unit :=
  let w1 := _log "FATAL" "@%s:%d in function %s(): %s"
    ([LogArg.str file, LogArg.num line, LogArg.str func, LogArg.str fmt] ++ args) w
  if do_exit then .exited 1 ⟨w1.script, w1.errno, w1.trace ++ [Event.exit 1], w1.cf, w1.sink⟩
  else .ret () w1

/-- The function `_fatal_perror(file, line, func, fmt, ...)`: it appends
`strerror(errno)` and hands over to `_fatal` with `do_exit` false. -/
def _fatal_perror (file : String) (line : Int) (func : String) (fmt : String)
    (w : World) : Outcome Unit :=
  _fatal file line func false "%s: %s" [LogArg.str fmt, LogArg.strerror w.errno] w

/-- Modelled from the spec: the macro `fatal_perror` of `bouncer.h`, which is not
in the sources; it supplies the source location of the call (file, line,
function) and calls `_fatal_perror`. -/
def fatal_perror (line : Int) (func : String) (fmt : String) (w : World) : Outcome Unit :=
  _fatal_perror "util.c" line func fmt w

/-! ## The wrappers that survive interruptions -/

/-- The function `safe_read` from `loop:` on; `bytes` is the content of `buf`. -/
def safe_read_loop (fd : Int) (buf : Nat) (len : Int) :
    List SysRes → List Nat → World → Outcome (Int × List Nat)
  | [], _, w => .blocked ⟨[], w.errno, w.trace, w.cf, w.sink⟩
  | r :: rest, bytes, w =>
    let w1 := sys (Call.read fd buf len) r ⟨rest, w.errno, w.trace, w.cf, w.sink⟩
    if r.res < 0 ∧ w1.errno = EINTR then safe_read_loop fd buf len rest (store bytes r.data) w1
    else .ret (r.res, store bytes r.data) w1

def safe_read (fd : Int) (buf : Nat) (bytes : List Nat) (len : Int) (w : World) :
    Outcome (Int × List Nat) :=
  safe_read_loop fd buf len w.script bytes w

def safe_write_loop (fd : Int) (buf : Nat) (len : Int) : List SysRes → World → Outcome Int
  | [], w => .blocked ⟨[], w.errno, w.trace, w.cf, w.sink⟩
  | r :: rest, w =>
    let w1 := sys (Call.write fd buf len) r ⟨rest, w.errno, w.trace, w.cf, w.sink⟩
    if r.res < 0 ∧ w1.errno = EINTR then safe_write_loop fd buf len rest w1
    else .ret r.res w1

def safe_write (fd : Int) (buf : Nat) (len : Int) (w : World) : Outcome Int :=
  safe_write_loop fd buf len w.script w

def safe_recv_loop (fd : Int) (buf : Nat) (len flags : Int) :
    List SysRes → List Nat → World → Outcome (Int × List Nat)
  | [], _, w => .blocked ⟨[], w.errno, w.trace, w.cf, w.sink⟩
  | r :: rest, bytes, w =>
    let w1 := sys (Call.recv fd buf len flags) r ⟨rest, w.errno, w.trace, w.cf, w.sink⟩
    if r.res < 0 ∧ w1.errno = EINTR then
      safe_recv_loop fd buf len flags rest (store bytes r.data) w1
    else if r.res < 0 then
      .ret (r.res, store bytes r.data)
        (log_noise "safe_recv(%d, %d) = %s"
          [LogArg.num fd, LogArg.num len, LogArg.strerror w1.errno] w1)
    else if w1.cf.cf_verbose > 2 then
      .ret (r.res, store bytes r.data)
        (log_noise "safe_recv(%d, %d) = %d" [LogArg.num fd, LogArg.num len, LogArg.num r.res] w1)
    else .ret (r.res, store bytes r.data) w1

def safe_recv (fd : Int) (buf : Nat) (bytes : List Nat) (len flags : Int) (w : World) :
    Outcome (Int × List Nat) :=
  safe_recv_loop fd buf len flags w.script bytes w

def safe_send_loop (fd : Int) (buf : Nat) (len flags : Int) : List SysRes → World → Outcome Int
  | [], w => .blocked ⟨[], w.errno, w.trace, w.cf, w.sink⟩
  | r :: rest, w =>
    let w1 := sys (Call.send fd buf len flags) r ⟨rest, w.errno, w.trace, w.cf, w.sink⟩
    if r.res < 0 ∧ w1.errno = EINTR then safe_send_loop fd buf len flags rest w1
    else if r.res < 0 then
      .ret r.res (log_noise "safe_send(%d, %d) = %s"
        [LogArg.num fd, LogArg.num len, LogArg.strerror w1.errno] w1)
    else if w1.cf.cf_verbose > 2 then
      .ret r.res (log_noise "safe_send(%d, %d) = %d"
        [LogArg.num fd, LogArg.num len, LogArg.num r.res] w1)
    else .ret r.res w1

def safe_send (fd : Int) (buf : Nat) (len flags : Int) (w : World) : Outcome Int :=
  safe_send_loop fd buf len flags w.script w

def safe_close_loop (fd : Int) : List SysRes → World → Outcome Int
  | [], w => .blocked ⟨[], w.errno, w.trace, w.cf, w.sink⟩
  | r :: rest, w =>
    let w1 := sys (Call.close fd) r ⟨rest, w.errno, w.trace, w.cf, w.sink⟩
    if r.res < 0 ∧ w1.errno = EINTR then safe_close_loop fd rest w1
    else .ret r.res w1

def safe_close (fd : Int) (w : World) : Outcome Int :=
  safe_close_loop fd w.script w

/-- The function `safe_recvmsg`; the message the kernel stores through `msg` is
not part of the model. -/
def safe_recvmsg_loop (fd : Int) (msg : Nat) (flags : Int) : List SysRes → World → Outcome Int
  | [], w => .blocked ⟨[], w.errno, w.trace, w.cf, w.sink⟩
  | r :: rest, w =>
    let w1 := sys (Call.recvmsg fd msg flags) r ⟨rest, w.errno, w.trace, w.cf, w.sink⟩
    if r.res < 0 ∧ w1.errno = EINTR then safe_recvmsg_loop fd msg flags rest w1
    else if r.res < 0 then
      .ret r.res (log_warning "safe_recvmsg(%d, msg, %d) = %s"
        [LogArg.num fd, LogArg.num flags, LogArg.strerror w1.errno] w1)
    else if w1.cf.cf_verbose > 2 then
      .ret r.res (log_noise "safe_recvmsg(%d, msg, %d) = %d"
        [LogArg.num fd, LogArg.num flags, LogArg.num r.res] w1)
    else .ret r.res w1

def safe_recvmsg (fd : Int) (msg : Nat) (flags : Int) (w : World) : Outcome Int :=
  safe_recvmsg_loop fd msg flags w.script w

/-- The `select(0, NULL, NULL, NULL, &tv)` with `tv = {1, 0}`: a sleep of one
second, its result ignored. -/
def select_sleep (w : World) : World :=
  ⟨w.script, w.errno, w.trace ++ [Event.sleep 1 0], w.cf, w.sink⟩

/-- The function `safe_sendmsg` from `loop:` on, with the local `msgerr_count`;
`iov_len` and `controllen` stand for `msg->msg_iov[0].iov_len` and
`msg->msg_controllen`. -/
def safe_sendmsg_loop (fd : Int) (msg : Nat) (iov_len controllen : Int) (flags : Int) :
    List SysRes → Nat → World → Outcome Int
  | [], _, w => .blocked ⟨[], w.errno, w.trace, w.cf, w.sink⟩
  | r :: rest, msgerr_count, w =>
    let w1 := sys (Call.sendmsg fd msg flags) r ⟨rest, w.errno, w.trace, w.cf, w.sink⟩
    if r.res < 0 ∧ w1.errno = EINTR then
      safe_sendmsg_loop fd msg iov_len controllen flags rest msgerr_count w1
    else if r.res < 0 then
      let w2 := log_warning "safe_sendmsg(%d, msg[%d,%d], %d) = %s"
        [LogArg.num fd, LogArg.num iov_len, LogArg.num controllen, LogArg.num flags,
          LogArg.strerror w1.errno] w1
      if w2.errno = EMSGSIZE ∧ msgerr_count < 20 then
        let w3 := log_warning "trying to sleep a bit" [] w2
        let w4 := select_sleep w3
        safe_sendmsg_loop fd msg iov_len controllen flags rest (msgerr_count + 1) w4
      else .ret r.res w2
    else if w1.cf.cf_verbose > 2 then
      .ret r.res (log_noise "safe_sendmsg(%d, msg, %d) = %d"
        [LogArg.num fd, LogArg.num flags, LogArg.num r.res] w1)
    else .ret r.res w1

def safe_sendmsg (fd : Int) (msg : Nat) (iov_len controllen : Int) (flags : Int) (w : World) :
    Outcome Int :=
  safe_sendmsg_loop fd msg iov_len controllen flags w.script 0 w

/-! ## `load_file` -/

/-- What `load_file` meets outside the retry loops: the outcome of `stat` with
the `st_size` it reports, the block `malloc(st_size + 1)` hands out (`none` for
NULL, otherwise its indeterminate bytes) and the outcome of `open`. -/
structure LoadEnv where
  stat_res : SysRes
  st_size : Nat
  block : Option (List Nat)
  open_res : SysRes
deriving DecidableEq, Repr

/-- The function `load_file(fn)`: `none` is the NULL result, `some buf` the bytes
of the returned block.  `fn` and `bufp` are the addresses of the path and of
the block. -/
def load_file (env : LoadEnv) (fn bufp : Nat) (w : World) : Outcome (Option (List Nat)) :=
  let w1 := sys (Call.stat fn) env.stat_res w
  if env.stat_res.res < 0 then
    .ret none (log_error "%s: %s" [LogArg.num fn, LogArg.strerror w1.errno] w1)
  else
    match env.block with
    | none => .ret none w1
    | some buf =>
      let w2 := sys (Call.openRdonly fn) env.open_res w1
      let fd := env.open_res.res
      if fd < 0 then
        .ret none (log_error "%s: %s" [LogArg.num fn, LogArg.strerror w2.errno] w2)
      else
        (safe_read fd bufp buf (Int.ofNat env.st_size) w2).bind fun rb w3 =>
          if rb.1 < 0 then
            .ret none (log_error "%s: %s" [LogArg.num fn, LogArg.strerror w3.errno] w3)
          else
            (safe_close fd w3).bind fun _ w4 =>
              .ret (some (rb.2.set env.st_size 0)) w4

/-! ## `pg_md5_encrypt` -/

/-- The constant `MD5_DIGEST_LENGTH` of `md5.h`, which is not in the sources: the
digest has 16 bytes. -/
def MD5_DIGEST_LENGTH : Nat := 16

/-- The MD5 implementation of `md5.h`, which is not in the sources, taken as a
parameter: a context type with `MD5_Init`, `MD5_Update` and `MD5_Final`, the
last of which fills a `uint8[MD5_DIGEST_LENGTH]`. -/
structure MD5 where
  Ctx : Type
  MD5_Init : Ctx
  MD5_Update : Ctx → List Nat → Ctx
  MD5_Final : Ctx → List Nat
  final_length : ∀ c, (MD5_Final c).length = MD5_DIGEST_LENGTH
  final_byte : ∀ c, ∀ b ∈ MD5_Final c, b < 256

/-- The table `hextbl` of `hash2hex`: the characters of "0123456789abcdef". -/
def hextbl : List Nat := [48, 49, 50, 51, 52, 53, 54, 55, 56, 57, 97, 98, 99, 100, 101, 102]

/-- The `for` loop of `hash2hex` with `n` rounds to go: `i` indexes `hash` and
`dst` is the offset of the pointer of that name into the memory `mem`. -/
def hash2hex_loop (hash : List Nat) : Nat → Nat → Nat → List Nat → List Nat × Nat
  | 0, _, dst, mem => (mem, dst)
  | n + 1, i, dst, mem =>
    let mem1 := mem.set dst (hextbl.getD (hash.getD i 0 >>> 4) 0)
    let mem2 := mem1.set (dst + 1) (hextbl.getD (hash.getD i 0 &&& 15) 0)
    hash2hex_loop hash n (i + 1) (dst + 2) mem2

/-- The function `hash2hex(hash, dst)`, `dst` pointing at offset `dst` of `mem`. -/
def hash2hex (hash : List Nat) (dst : Nat) (mem : List Nat) : List Nat :=
  let r := hash2hex_loop hash MD5_DIGEST_LENGTH 0 dst mem
  r.1.set r.2 0

/-- The call `memcpy(dest, src, n)` at offset 0 of `dest`. -/
def memcpy (dest src : List Nat) (n : Nat) : List Nat :=
  (src.take n).take dest.length ++ dest.drop n

/-- The call `memset(buf, c, n)` at offset 0 of `buf`. -/
def memset (buf : List Nat) (c n : Nat) : List Nat :=
  List.replicate (min n buf.length) c ++ buf.drop n

/-- The size of one `uint8`, the value of `sizeof(*hash)`. -/
def sizeof_uint8 : Nat := 1

structure Md5Result where
  ret : Bool
  dest : List Nat
  hash : List Nat

/-- The function `pg_md5_encrypt(part1, part2, part2len, dest)`: `part1` is a C
string, `part2` the memory at that pointer, `dest` the caller's buffer.  The
result holds the return value, the buffer and the local array `hash` as the
function leaves it. -/
def pg_md5_encrypt (md5 : MD5) (part1 part2 : List Nat) (part2len : Nat) (dest : List Nat) :
    Md5Result :=
  let ctx := md5.MD5_Init
  let ctx1 := md5.MD5_Update ctx part1
  let ctx2 := md5.MD5_Update ctx1 (part2.take part2len)
  let hash := md5.MD5_Final ctx2
  let dest1 := memcpy dest [109, 100, 53] 3
  let dest2 := hash2hex hash 3 dest1
  let hash1 := memset hash 0 sizeof_uint8
  ⟨true, dest2, hash1⟩

/-- The digest `pg_md5_encrypt` computes: MD5 over `part1` followed by the first
`part2len` bytes of `part2`. -/
def digest (md5 : MD5) (part1 part2 : List Nat) (part2len : Nat) : List Nat :=
  md5.MD5_Final (md5.MD5_Update (md5.MD5_Update md5.MD5_Init part1) (part2.take part2len))

/-- A character of `0-9a-f`. -/
def isLowerHex (c : Nat) : Bool := (48 ≤ c && c ≤ 57) || (97 ≤ c && c ≤ 102)

/-- The lowercase hex digit of a nibble `d < 16`: `'0' + d` or `'a' + (d - 10)`. -/
def hexchar (d : Nat) : Nat := if d < 10 then 48 + d else 87 + d

/-- The two-digit lowercase hex encoding of a byte string, high nibble first. -/
def hexOf : List Nat → List Nat
  | [] => []
  | b :: bs => hexchar (b / 16) :: hexchar (b % 16) :: hexOf bs

/-- The MD5 digest of the empty message, `d41d8cd98f00b204e9800998ecf8427e`. -/
def md5_empty_digest : List Nat :=
  [0xd4, 0x1d, 0x8c, 0xd9, 0x8f, 0x00, 0xb2, 0x04, 0xe9, 0x80, 0x09, 0x98, 0xec, 0xf8, 0x42, 0x7e]

/-- An MD5 stand-in for closed examples: it hashes nothing and always yields the
digest of the empty message. -/
def md5_of_empty : MD5 where
  Ctx := Unit
  MD5_Init := ()
  MD5_Update := fun _ _ => ()
  MD5_Final := fun _ => md5_empty_digest
  final_length := fun _ => rfl
  final_byte := fun _ => (by decide : ∀ b ∈ md5_empty_digest, b < 256)

/-! ## `get_random_bytes` -/

/-- The `for` loop of `get_random_bytes` with `n` rounds to go; `rnd k` is what
the `k`-th call of `random()` returns and `calls` counts the calls made. -/
def get_random_bytes_loop (rnd : Nat → Nat) : Nat → Nat → Nat → List Nat → List Nat × Nat
  | 0, _, calls, dest => (dest, calls)
  | n + 1, i, calls, dest =>
    get_random_bytes_loop rnd n (i + 1) (calls + 1) (dest.set i (rnd calls &&& 255))

/-- Conversion of an `int` to `bool`.  The header that declares `bool` is not in
the sources; it is taken to be the `bool` of `<stdbool.h>`, for which 0 stays 0
and every other value becomes 1. -/
def int_to_bool (x : Int) : Int := if x ≠ 0 then 1 else 0

structure RandomResult where
  ret : Int
  dest : List Nat
  calls : Nat

/-- The function `bool get_random_bytes(dest, len)`: the loop runs for
`i = 0 .. len - 1` and `return len` is converted to the return type `bool`. -/
def get_random_bytes (rnd : Nat → Nat) (calls : Nat) (dest : List Nat) (len : Int) :
    RandomResult :=
  let r := get_random_bytes_loop rnd len.toNat 0 calls dest
  ⟨int_to_bool len, r.1, r.2⟩

/-! ## The cached clock -/

/-- Modelled from the spec: the constant `USEC` of `bouncer.h`, which is not in
the sources; the clock has microsecond resolution. -/
def USEC : Nat := 1000000

/-- The clock state of the process: the static `time_cache`, the readings
`(tv_sec, tv_usec)` the system clock gives to successive `gettimeofday` calls,
and the number of such calls made so far. -/
structure TimeState where
  time_cache : Nat
  clock : Nat → Nat × Nat
  reads : Nat

/-- The value `(usec_t)tv.tv_sec * USEC + tv.tv_usec` in 64-bit unsigned arithmetic. -/
def usec_of (tv : Nat × Nat) : Nat := ((tv.1 % 2 ^ 64) * USEC + tv.2) % 2 ^ 64

/-- The function `get_time_usec()`. -/
def get_time_usec (s : TimeState) : Nat × TimeState :=
  (usec_of (s.clock s.reads), ⟨s.time_cache, s.clock, s.reads + 1⟩)

/-- The function `get_cached_time()`. -/
def get_cached_time (s : TimeState) : Nat × TimeState :=
  if s.time_cache = 0 then
    let r := get_time_usec s
    (r.1, ⟨r.1, r.2.clock, r.2.reads⟩)
  else (s.time_cache, s)

/-- The function `reset_time_cache()`. -/
def reset_time_cache (s : TimeState) : TimeState := ⟨0, s.clock, s.reads⟩

/-- The values returned by `n` calls of `get_cached_time` in a row. -/
def cached_times : Nat → TimeState → List Nat
  | 0, _ => []
  | n + 1, s => (get_cached_time s).1 :: cached_times n (get_cached_time s).2

/-- A system clock that reads 0 at the first call and 5 microseconds at every later one. -/
def clock_zero_then_five : Nat → Nat × Nat := fun k => if k = 0 then (0, 0) else (0, 5)

/-! ## Socket tuning -/

/-- What the build platform defines: the value of `O_NONBLOCK` and which of the
`#ifdef` branches of `tune_socket` are compiled in. -/
structure Platform where
  O_NONBLOCK : Int
  has_SO_NOSIGPIPE : Bool
  is_linux : Bool
  has_TCP_KEEPALIVE : Bool
deriving DecidableEq, Repr

/-- The `FD_CLOEXEC` of `<fcntl.h>`. -/
def FD_CLOEXEC : Int := 1

/-- A `setsockopt` followed by its `if (res < 0) fatal_perror(...)`. -/
def setsockopt_or_fatal (sock : Int) (opt : SockOpt) (val : Int) (line : Int) (msg : String)
    (w : World) : Outcome Unit :=
  (syscall (Call.setsockopt sock opt val) w).bind fun r w1 =>
    if r.res < 0 then fatal_perror line "tune_socket" msg w1 else .ret () w1

/-- The function `socket_set_nonblocking(fd, val)`. -/
def socket_set_nonblocking (pf : Platform) (fd : Int) (val : Int) (w : World) : Outcome Unit :=
  (syscall (Call.fcntl fd FcntlCmd.F_GETFL 0) w).bind fun r w1 =>
    let flags := r.res
    (if flags < 0 then fatal_perror 373 "socket_set_nonblocking" "fcntl(F_GETFL)" w1
      else .ret () w1).bind fun _ w2 =>
    let flags1 := if val ≠ 0 then Int.lor flags pf.O_NONBLOCK
      else Int.land flags (Int.lnot pf.O_NONBLOCK)
    (syscall (Call.fcntl fd FcntlCmd.F_SETFL flags1) w2).bind fun r2 w3 =>
      if r2.res < 0 then fatal_perror 384 "socket_set_nonblocking" "fcntl(F_SETFL)" w3
      else .ret () w3

/-- The keepalive block of `tune_socket`, entered when `cf_tcp_keepalive` is set. -/
def tune_keepalive (pf : Platform) (sock : Int) (w : World) : Outcome Unit :=
  (setsockopt_or_fatal sock SockOpt.SO_KEEPALIVE 1 421 "setsockopt SO_KEEPALIVE" w).bind
    fun _ w1 =>
    if pf.is_linux then
      (if w1.cf.cf_tcp_keepcnt > 0 then
          setsockopt_or_fatal sock SockOpt.TCP_KEEPCNT w1.cf.cf_tcp_keepcnt 428
            "setsockopt TCP_KEEPCNT" w1
        else .ret () w1).bind fun _ w2 =>
      (if w2.cf.cf_tcp_keepidle ≠ 0 then
          setsockopt_or_fatal sock SockOpt.TCP_KEEPIDLE w2.cf.cf_tcp_keepidle 435
            "setsockopt TCP_KEEPIDLE" w2
        else .ret () w2).bind fun _ w3 =>
      if w3.cf.cf_tcp_keepintvl ≠ 0 then
        setsockopt_or_fatal sock SockOpt.TCP_KEEPINTVL w3.cf.cf_tcp_keepintvl 442
          "setsockopt TCP_KEEPINTVL" w3
      else .ret () w3
    else if pf.has_TCP_KEEPALIVE then
      if w1.cf.cf_tcp_keepidle ≠ 0 then
        setsockopt_or_fatal sock SockOpt.TCP_KEEPALIVE w1.cf.cf_tcp_keepidle 450
          "setsockopt TCP_KEEPALIVE" w1
      else .ret () w1
    else .ret () w1

/-- The function `tune_socket(sock, is_unix)`. -/
def tune_socket (pf : Platform) (sock : Int) (is_unix : Bool) (w : World) : Outcome Unit :=
  (syscall (Call.fcntl sock FcntlCmd.F_SETFD FD_CLOEXEC) w).bind fun r w1 =>
  (if r.res < 0 then fatal_perror 396 "tune_socket" "fcntl FD_CLOEXEC" w1
    else .ret () w1).bind fun _ w2 =>
  (socket_set_nonblocking pf sock 1 w2).bind fun _ w3 =>
  (if pf.has_SO_NOSIGPIPE then
      setsockopt_or_fatal sock SockOpt.SO_NOSIGPIPE 1 406 "setsockopt SO_NOSIGPIPE" w3
    else .ret () w3).bind fun _ w4 =>
  if is_unix then .ret () w4
  else
    (if w4.cf.cf_tcp_keepalive ≠ 0 then tune_keepalive pf sock w4 else .ret () w4).bind
      fun _ w5 =>
    (if w5.cf.cf_tcp_socket_buffer ≠ 0 then
        (setsockopt_or_fatal sock SockOpt.SO_SNDBUF w5.cf.cf_tcp_socket_buffer 461
          "setsockopt SO_SNDBUF" w5).bind fun _ w6 =>
        setsockopt_or_fatal sock SockOpt.SO_RCVBUF w6.cf.cf_tcp_socket_buffer 465
          "setsockopt SO_RCVBUF" w6
      else .ret () w5).bind fun _ w7 =>
    setsockopt_or_fatal sock SockOpt.TCP_NODELAY 1 474 "setsockopt TCP_NODELAY" w7

/-- A Linux build: `O_NONBLOCK` is 04000 and `SO_NOSIGPIPE` does not exist. -/
def linux : Platform := ⟨2048, false, true, false⟩

/-- The `EBADF` of `<errno.h>` (Linux numbering). -/
def EBADF : Nat := 9

/-- A kernel that rejects the first configuration step of a socket with `EBADF`
and accepts the two steps after it, reporting the flags `O_RDWR` in between. -/
def world_rejecting_cloexec : World :=
  ⟨[⟨-1, EBADF, []⟩, ⟨2, 0, []⟩, ⟨0, 0, []⟩], 0, [], cf_zero, []⟩

/-- A file of five bytes, "hello", whose `read` delivers only the first two: the
block from `malloc` holds six bytes `0xaa`, `open` returns descriptor 3. -/
def env_hello : LoadEnv :=
  ⟨⟨0, 0, []⟩, 5, some [170, 170, 170, 170, 170, 170], ⟨3, 0, []⟩⟩

/-- The kernel script for `env_hello`: a `read` that returns 2 with the bytes "he",
then a `close` that succeeds. -/
def world_short_read : World := ⟨[⟨2, 0, [104, 101]⟩, ⟨0, 0, []⟩], 0, [], cf_zero, []⟩

/-- The outcome is not a process exit. -/
def Outcome.running {α : Type} : Outcome α → Prop
  | .exited _ _ => False
  | _ => True

/-! # Theorems -/

/-! ## Facts about `strstr` and C strings -/

theorem strstrFrom_some (needle : List Nat) :
    ∀ (hay : List Nat) (i p : Nat), strstrFrom needle hay i = some p →
      i ≤ p ∧ p - i ≤ hay.length ∧ needle <+: hay.drop (p - i) ∧
        ∀ k, k < p - i → ¬ needle <+: hay.drop k := by
  intro hay
  induction hay with
  | nil =>
    intro i p h
    simp only [strstrFrom] at h
    split at h
    · rename_i hp
      have hip : i = p := by simpa using h
      subst hip
      refine ⟨le_refl _, by simp, ?_, by simp⟩
      simpa using List.isPrefixOf_iff_prefix.mp hp
    · simp at h
  | cons c cs ih =>
    intro i p h
    simp only [strstrFrom] at h
    split at h
    · rename_i hp
      have hip : i = p := by simpa using h
      subst hip
      refine ⟨le_refl _, by simp, ?_, by simp⟩
      simpa using List.isPrefixOf_iff_prefix.mp hp
    · rename_i hp
      obtain ⟨h1, h2, h3, h4⟩ := ih (i + 1) p h
      have e : p - i = (p - (i + 1)) + 1 := by omega
      refine ⟨by omega, by simp only [List.length_cons]; omega, ?_, ?_⟩
      · rw [e, List.drop_succ_cons]; exact h3
      · intro k hk
        cases k with
        | zero =>
          intro hpre
          exact hp (List.isPrefixOf_iff_prefix.mpr (by simpa using hpre))
        | succ k =>
          rw [List.drop_succ_cons]
          exact h4 k (by omega)

theorem strstrFrom_none (needle : List Nat) :
    ∀ (hay : List Nat) (i : Nat), strstrFrom needle hay i = none →
      ∀ k, ¬ needle <+: hay.drop k := by
  intro hay
  induction hay with
  | nil =>
    intro i h k
    simp only [strstrFrom] at h
    split at h
    · simp at h
    · rename_i hp
      intro hpre
      exact hp (List.isPrefixOf_iff_prefix.mpr (by simpa using hpre))
  | cons c cs ih =>
    intro i h k
    simp only [strstrFrom] at h
    split at h
    · simp at h
    · rename_i hp
      cases k with
      | zero =>
        intro hpre
        exact hp (List.isPrefixOf_iff_prefix.mpr (by simpa using hpre))
      | succ k =>
        rw [List.drop_succ_cons]
        exact ih (i + 1) h k

theorem strstr_some {l needle : List Nat} {pos p : Nat} (h : strstr l pos needle = some p)
    (hpos : pos ≤ l.length) :
    pos ≤ p ∧ p ≤ l.length ∧ needle <+: l.drop p ∧
      ∀ q, pos ≤ q → q < p → ¬ needle <+: l.drop q := by
  obtain ⟨h1, h2, h3, h4⟩ := strstrFrom_some needle (l.drop pos) pos p h
  rw [List.drop_drop] at h3
  rw [List.length_drop] at h2
  refine ⟨h1, by omega, ?_, ?_⟩
  · have e : pos + (p - pos) = p := by omega
    rw [e] at h3; exact h3
  · intro q hq1 hq2 hpre
    apply h4 (q - pos) (by omega)
    rw [List.drop_drop]
    have e : pos + (q - pos) = q := by omega
    rw [e]; exact hpre

theorem strstr_none {l needle : List Nat} {pos : Nat} (h : strstr l pos needle = none) :
    ∀ q, pos ≤ q → ¬ needle <+: l.drop q := by
  intro q hq hpre
  apply strstrFrom_none needle (l.drop pos) pos h (q - pos)
  rw [List.drop_drop]
  have e : pos + (q - pos) = q := by omega
  rw [e]; exact hpre

theorem strstr_isSome_of_prefix {l needle : List Nat} {pos q : Nat} (hq : pos ≤ q)
    (hpre : needle <+: l.drop q) : ∃ p, strstr l pos needle = some p := by
  cases h : strstr l pos needle with
  | none => exact absurd hpre (strstr_none h q hq)
  | some p => exact ⟨p, rfl⟩

theorem prefix_drop_length {l needle : List Nat} {p : Nat} (hp : p ≤ l.length)
    (hpre : needle <+: l.drop p) : p + needle.length ≤ l.length := by
  have := hpre.length_le
  rw [List.length_drop] at this
  omega

theorem charAt_of_prefix {l needle : List Nat} {p j : Nat} (hpre : needle <+: l.drop p)
    (hj : j < needle.length) : charAt l (p + j) ∈ needle := by
  obtain ⟨t, ht⟩ := hpre
  have h1 : (l.drop p)[j]? = needle[j]? := by
    rw [← ht]; exact List.getElem?_append_left hj
  rw [List.getElem?_drop] at h1
  unfold charAt
  rw [List.getD_eq_getElem?_getD, h1, List.getElem?_eq_getElem hj]
  exact List.getElem_mem hj

theorem charAt_ne_zero {l : List Nat} (hl : IsCStr l) {i : Nat} (hi : i < l.length) :
    charAt l i ≠ 0 := by
  unfold charAt
  rw [List.getD_eq_getElem l 0 hi]
  exact hl _ (List.getElem_mem hi)

theorem charAt_eq_zero {l : List Nat} {i : Nat} (hi : l.length ≤ i) : charAt l i = 0 := by
  unfold charAt
  exact List.getD_eq_default l 0 hi

/-! ## The scan of `strlist_contains` -/

/-- The two `goto loop` tests of `strlist_contains` at a fragment found at `p`. -/
theorem strlist_contains_loop_succ {l tok : List Nat} {fuel pos p : Nat}
    (h : strstr l pos tok = some p) :
    strlist_contains_loop l tok (fuel + 1) pos =
      if (0 < p ∧ ¬ (isspace (charAt l (p - 1)) = true) ∧ charAt l (p - 1) ≠ COMMA) ∨
          (charAt l (p + tok.length) ≠ 0 ∧ ¬ (isspace (charAt l (p + tok.length)) = true) ∧
            charAt l (p + tok.length) ≠ COMMA) then
        strlist_contains_loop l tok fuel
          (if charAt l (p + tok.length) ≠ 0 then p + tok.length + 1 else p + tok.length)
      else some true := by
  simp only [strlist_contains_loop, h]
  by_cases c1 : 0 < p ∧ ¬ (isspace (charAt l (p - 1)) = true) ∧ charAt l (p - 1) ≠ COMMA
  · rw [if_pos c1, if_pos (Or.inl c1)]
  · rw [if_neg c1]
    by_cases c2 : charAt l (p + tok.length) ≠ 0 ∧
        ¬ (isspace (charAt l (p + tok.length)) = true) ∧ charAt l (p + tok.length) ≠ COMMA
    · rw [if_pos c2, if_pos (Or.inr c2)]
    · rw [if_neg c2, if_neg (by tauto)]

theorem isDelim_iff (c : Nat) : isDelim c = true ↔ isspace c = true ∨ c = COMMA := by
  simp [isDelim]

theorem isDelim_zero : isDelim 0 = false := by decide

theorem tokenAt_le {l tok : List Nat} {q : Nat} (h : TokenAt l tok q) :
    q + tok.length ≤ l.length := by
  obtain ⟨_, _, h3⟩ := h
  rcases h3 with h3 | h3
  · omega
  · by_contra hlt
    have hz : charAt l (q + tok.length) = 0 := charAt_eq_zero (by omega)
    rw [hz, isDelim_zero] at h3
    cases h3

/-- At a fragment the code accepts exactly the whole tokens. -/
theorem reject_iff_not_tokenAt {l tok : List Nat} {p : Nat} (hl : IsCStr l)
    (hp : p ≤ l.length) (hpre : tok <+: l.drop p) :
    ((0 < p ∧ ¬ (isspace (charAt l (p - 1)) = true) ∧ charAt l (p - 1) ≠ COMMA) ∨
      (charAt l (p + tok.length) ≠ 0 ∧ ¬ (isspace (charAt l (p + tok.length)) = true) ∧
        charAt l (p + tok.length) ≠ COMMA)) ↔ ¬ TokenAt l tok p := by
  have hlen := prefix_drop_length hp hpre
  have hend : charAt l (p + tok.length) = 0 ↔ p + tok.length = l.length := by
    constructor
    · intro hz
      by_contra hne
      exact charAt_ne_zero hl (by omega) hz
    · intro he
      exact charAt_eq_zero (by omega)
  unfold TokenAt
  rw [isDelim_iff, isDelim_iff, ← hend]
  constructor
  · rintro (⟨h1, h2, h3⟩ | ⟨h1, h2, h3⟩) ⟨_, hb, ha⟩
    · rcases hb with hb | hb | hb
      · omega
      · exact h2 hb
      · exact h3 hb
    · rcases ha with ha | ha | ha
      · exact h1 ha
      · exact h2 ha
      · exact h3 ha
  · intro hn
    by_contra hc
    push_neg at hc
    apply hn
    refine ⟨hpre, ?_, ?_⟩
    · by_cases h0 : p = 0
      · exact Or.inl h0
      · right
        by_cases hs : isspace (charAt l (p - 1)) = true
        · exact Or.inl hs
        · exact Or.inr (hc.1 (by omega) hs)
    · by_cases hz : charAt l (p + tok.length) = 0
      · exact Or.inl hz
      · right
        by_cases hs : isspace (charAt l (p + tok.length)) = true
        · exact Or.inl hs
        · exact Or.inr (hc.2 hz hs)

/-- A whole token at or after `listpos` is found: the scan answers true. -/
theorem strlist_contains_loop_true (l tok : List Nat) (hl : IsCStr l)
    (hd : ∀ c ∈ tok, isDelim c = false) :
    ∀ (fuel pos q : Nat), pos ≤ q → q - pos < fuel → TokenAt l tok q →
      strlist_contains_loop l tok fuel pos = some true := by
  intro fuel
  induction fuel with
  | zero => intro pos q _ h; omega
  | succ fuel ih =>
    intro pos q hpq hfuel hq
    have hqlen := tokenAt_le hq
    obtain ⟨p, hp⟩ := strstr_isSome_of_prefix hpq hq.1
    obtain ⟨h1, h2, h3, h4⟩ := strstr_some hp (by omega)
    have hple : p ≤ q := by
      by_contra hlt
      exact h4 q hpq (by omega) hq.1
    rw [strlist_contains_loop_succ hp]
    by_cases hacc : TokenAt l tok p
    · rw [if_neg (fun hr => (reject_iff_not_tokenAt hl h2 h3).mp hr hacc)]
    · rw [if_pos ((reject_iff_not_tokenAt hl h2 h3).mpr hacc)]
      have hlt : p < q := by
        rcases Nat.lt_or_ge p q with h | h
        · exact h
        · have : p = q := by omega
          subst this
          exact absurd hq hacc
      have hnz : charAt l (p + tok.length) ≠ 0 := charAt_ne_zero hl (by omega)
      rw [if_pos hnz]
      have hfar : p + tok.length + 1 ≤ q := by
        by_contra hnear
        have hj : q - 1 - p < tok.length := by omega
        have hmem := charAt_of_prefix h3 hj
        have e : p + (q - 1 - p) = q - 1 := by omega
        rw [e] at hmem
        have hnd := hd _ hmem
        rcases hq.2.1 with h0 | hdl
        · omega
        · rw [hnd] at hdl
          cases hdl
      exact ih (p + tok.length + 1) q hfar (by omega) hq

/-- No whole token anywhere: the scan of a non-empty token answers false. -/
theorem strlist_contains_loop_false (l tok : List Nat) (hl : IsCStr l) (hne : tok ≠ [])
    (hno : ∀ q, ¬ TokenAt l tok q) :
    ∀ (fuel pos : Nat), pos ≤ l.length → l.length - pos + 1 ≤ fuel →
      strlist_contains_loop l tok fuel pos = some false := by
  have hlen : 0 < tok.length := List.length_pos.mpr hne
  intro fuel
  induction fuel with
  | zero => intro pos _ h; omega
  | succ fuel ih =>
    intro pos hpos hfuel
    cases hs : strstr l pos tok with
    | none => simp [strlist_contains_loop, hs]
    | some p =>
      obtain ⟨h1, h2, h3, _⟩ := strstr_some hs hpos
      have hpl := prefix_drop_length h2 h3
      rw [strlist_contains_loop_succ hs,
        if_pos ((reject_iff_not_tokenAt hl h2 h3).mpr (hno p))]
      by_cases hz : charAt l (p + tok.length) = 0
      · rw [if_neg (by simpa using hz)]
        exact ih _ hpl (by omega)
      · rw [if_pos hz]
        have hlt : p + tok.length < l.length := by
          by_contra hge
          exact hz (charAt_eq_zero (by omega))
        exact ih _ (by omega) (by omega)

/-- The scan of a non-empty token always ends, and it answers true only at a whole token. -/
theorem strlist_contains_loop_returns (l tok : List Nat) (hl : IsCStr l) (hne : tok ≠ []) :
    ∀ (fuel pos : Nat), pos ≤ l.length → l.length - pos + 1 ≤ fuel →
      ∃ b, strlist_contains_loop l tok fuel pos = some b ∧ (b = true → ∃ i, TokenAt l tok i) := by
  have hlen : 0 < tok.length := List.length_pos.mpr hne
  intro fuel
  induction fuel with
  | zero => intro pos _ h; omega
  | succ fuel ih =>
    intro pos hpos hfuel
    cases hs : strstr l pos tok with
    | none => exact ⟨false, by simp [strlist_contains_loop, hs], by simp⟩
    | some p =>
      obtain ⟨h1, h2, h3, _⟩ := strstr_some hs hpos
      have hpl := prefix_drop_length h2 h3
      rw [strlist_contains_loop_succ hs]
      by_cases hacc : TokenAt l tok p
      · rw [if_neg (fun hr => (reject_iff_not_tokenAt hl h2 h3).mp hr hacc)]
        exact ⟨true, rfl, fun _ => ⟨p, hacc⟩⟩
      · rw [if_pos ((reject_iff_not_tokenAt hl h2 h3).mpr hacc)]
        by_cases hz : charAt l (p + tok.length) = 0
        · rw [if_neg (by simpa using hz)]
          exact ih _ hpl (by omega)
        · rw [if_pos hz]
          have hlt : p + tok.length < l.length := by
            by_contra hge
            exact hz (charAt_eq_zero (by omega))
          exact ih _ (by omega) (by omega)

/-- With the empty token and no position that satisfies both boundary rules, the
scan never leaves its loop. -/
theorem strlist_contains_loop_empty_stuck (l : List Nat) (hl : IsCStr l)
    (hno : ∀ q, ¬ TokenAt l [] q) :
    ∀ (fuel pos : Nat), pos ≤ l.length → strlist_contains_loop l [] fuel pos = none := by
  intro fuel
  induction fuel with
  | zero => intro pos _; rfl
  | succ fuel ih =>
    intro pos hpos
    obtain ⟨p, hs⟩ := strstr_isSome_of_prefix (l := l) (le_refl pos) (List.nil_prefix)
    obtain ⟨h1, h2, h3, _⟩ := strstr_some hs hpos
    rw [strlist_contains_loop_succ hs, if_pos ((reject_iff_not_tokenAt hl h2 h3).mpr (hno p))]
    by_cases hz : charAt l (p + ([] : List Nat).length) = 0
    · rw [if_neg (by simpa using hz)]
      exact ih _ (by simpa using h2)
    · rw [if_pos hz]
      have hlt : p + ([] : List Nat).length < l.length := by
        by_contra hge
        exact hz (charAt_eq_zero (by omega))
      exact ih _ (by simpa using hlt)

/-! ## Properties of `strlist_contains` -/

/-- C1: for every list and every non-empty token without comma and whitespace,
`strlist_contains(list, token)` returns, and it returns true exactly when the token
occurs in the list at a position whose character before is the start of the list,
a comma or whitespace and whose character after is the end of the list, a comma
or whitespace. -/
theorem strlist_contains_iff_whole_token (list tok : List Nat) (hl : IsCStr list)
    (_ht : IsCStr tok) (hne : tok ≠ []) (hd : ∀ c ∈ tok, isDelim c = false) :
    ∃ b : Bool, (∀ fuel, list.length + 1 ≤ fuel → strlist_contains fuel list tok = some b) ∧
      (b = true ↔ ∃ i, TokenAt list tok i) := by
  have hlen : 0 < tok.length := List.length_pos.mpr hne
  by_cases h : ∃ i, TokenAt list tok i
  · refine ⟨true, ?_, by simp [h]⟩
    obtain ⟨q, hq⟩ := h
    have hq2 := tokenAt_le hq
    intro fuel hfuel
    exact strlist_contains_loop_true list tok hl hd fuel 0 q (Nat.zero_le q) (by omega) hq
  · refine ⟨false, ?_, by simp [h]⟩
    intro fuel hfuel
    exact strlist_contains_loop_false list tok hl hne (fun q hq => h ⟨q, hq⟩) fuel 0
      (Nat.zero_le _) (by omega)

/-- C1 at the spec's example: "bb" is a whole token of "a,bb,ccc". -/
theorem strlist_contains_iff_whole_token_witness :
    IsCStr (bytes "a,bb,ccc") ∧ IsCStr (bytes "bb") ∧ bytes "bb" ≠ [] ∧
      (∀ c ∈ bytes "bb", isDelim c = false) ∧
      ∃ b : Bool, (∀ fuel, (bytes "a,bb,ccc").length + 1 ≤ fuel →
          strlist_contains fuel (bytes "a,bb,ccc") (bytes "bb") = some b) ∧
        (b = true ↔ ∃ i, TokenAt (bytes "a,bb,ccc") (bytes "bb") i) :=
  ⟨by decide, by decide, by decide, by decide,
    strlist_contains_iff_whole_token (bytes "a,bb,ccc") (bytes "bb") (by decide) (by decide)
      (by decide) (by decide)⟩

/-- The three examples of the list matcher that the code reproduces. -/
theorem strlist_contains_examples :
    strlist_contains 9 (bytes "a,bb,ccc") (bytes "bb") = some true ∧
      strlist_contains 9 (bytes "a,bb,ccc") (bytes "b") = some false ∧
      strlist_contains 1 (bytes "") (bytes "x") = some false := by
  decide

/-- C2 (as the code has it): for every list and every token that is non-empty or
has a position in the list satisfying both boundary rules, `strlist_contains`
returns; a true answer comes from a whole-token match, and the empty token is
answered with true. -/
theorem strlist_contains_returns (list tok : List Nat) (hl : IsCStr list) (_ht : IsCStr tok)
    (h : tok ≠ [] ∨ ∃ i, TokenAt list tok i) :
    ∃ b : Bool, (∀ fuel, list.length + 1 ≤ fuel → strlist_contains fuel list tok = some b) ∧
      (b = true → ∃ i, TokenAt list tok i) ∧ (tok = [] → b = true) := by
  by_cases he : tok = []
  · subst he
    rcases h with h | ⟨q, hq⟩
    · exact absurd rfl h
    · refine ⟨true, ?_, fun _ => ⟨q, hq⟩, fun _ => rfl⟩
      have hq2 := tokenAt_le hq
      intro fuel hfuel
      exact strlist_contains_loop_true list [] hl (by simp) fuel 0 q (Nat.zero_le q)
        (by omega) hq
  · have key : ∀ fuel, list.length + 1 ≤ fuel →
        ∃ b, strlist_contains fuel list tok = some b ∧ (b = true → ∃ i, TokenAt list tok i) :=
      fun fuel hfuel =>
        strlist_contains_loop_returns list tok hl he fuel 0 (Nat.zero_le _) (by omega)
    obtain ⟨b, hb, hb2⟩ := key (list.length + 1) (le_refl _)
    refine ⟨b, ?_, hb2, fun h0 => absurd h0 he⟩
    intro fuel hfuel
    obtain ⟨b2, hb3, _⟩ := key fuel hfuel
    rw [hb3]
    -- the answer does not depend on the budget once it suffices
    have hmono : ∀ (n pos : Nat) (c : Bool), strlist_contains_loop list tok n pos = some c →
        ∀ m, n ≤ m → strlist_contains_loop list tok m pos = some c := by
      intro n
      induction n with
      | zero => intro pos c hc; simp [strlist_contains_loop] at hc
      | succ n ih =>
        intro pos c hc m hm
        obtain ⟨m, rfl⟩ : ∃ m2, m = m2 + 1 := ⟨m - 1, by omega⟩
        cases hs : strstr list pos tok with
        | none =>
          simp only [strlist_contains_loop, hs] at hc ⊢
          exact hc
        | some p =>
          rw [strlist_contains_loop_succ hs] at hc ⊢
          split at hc
          · rename_i hr
            rw [if_pos hr]
            exact ih _ c hc m (by omega)
          · rename_i hr
            rw [if_neg hr]
            exact hc
    have := hmono (list.length + 1) 0 b hb fuel hfuel
    unfold strlist_contains at hb3
    rw [hb3] at this
    exact this

/-- C2 (as the code has it) at the empty token: "foo,,bar" has the position
between its two commas. -/
theorem strlist_contains_returns_witness :
    IsCStr (bytes "foo,,bar") ∧ IsCStr (bytes "") ∧
      (bytes "" ≠ [] ∨ ∃ i, TokenAt (bytes "foo,,bar") (bytes "") i) ∧
      ∃ b : Bool, (∀ fuel, (bytes "foo,,bar").length + 1 ≤ fuel →
          strlist_contains fuel (bytes "foo,,bar") (bytes "") = some b) ∧
        (b = true → ∃ i, TokenAt (bytes "foo,,bar") (bytes "") i) ∧ (bytes "" = [] → b = true) :=
  ⟨by decide, by decide, Or.inr ⟨4, by decide⟩,
    strlist_contains_returns (bytes "foo,,bar") (bytes "") (by decide) (by decide)
      (Or.inr ⟨4, by decide⟩)⟩

/-- C2 as stated fails: `strlist_contains("foo,bar", "")` does not return true, it
does not return at all: no number of passes of its loop yields an answer. -/
theorem strlist_contains_empty_token_never_returns :
    ¬ ∃ fuel : Nat, ∃ b : Bool,
      strlist_contains fuel (bytes "foo,bar") (bytes "") = some b := by
  rintro ⟨fuel, b, hb⟩
  have hno : ∀ q, ¬ TokenAt (bytes "foo,bar") [] q := by
    intro q hq
    have hle := tokenAt_le hq
    have hq7 : q ≤ 7 := by simpa [bytes] using hle
    interval_cases q <;> revert hq <;> decide
  have hnone : strlist_contains fuel (bytes "foo,bar") (bytes "") = none :=
    strlist_contains_loop_empty_stuck (bytes "foo,bar") (by decide) hno fuel 0 (Nat.zero_le _)
  rw [hnone] at hb
  cases hb

/-! ## Traces -/

theorem callsOf_append (a b : List Event) : callsOf (a ++ b) = callsOf a ++ callsOf b := by
  simp [callsOf, List.filterMap_append]

theorem sleepsOf_append (a b : List Event) : sleepsOf (a ++ b) = sleepsOf a + sleepsOf b := by
  simp [sleepsOf, List.filter_append]

theorem callsOf_sys (c : Call) (r : SysRes) (w : World) :
    callsOf (sys c r w).trace = callsOf w.trace ++ [c] := by
  simp [sys, callsOf, List.filterMap_append]

theorem sleepsOf_sys (c : Call) (r : SysRes) (w : World) :
    sleepsOf (sys c r w).trace = sleepsOf w.trace := by
  simp [sys, sleepsOf, List.filter_append]

theorem callsOf_log_level (pfx fmt : String) (args : List LogArg) (w : World) :
    callsOf (log_level pfx fmt args w).trace = callsOf w.trace := by
  simp [log_level, _log, _log_write, callsOf, List.filterMap_append]

theorem sleepsOf_log_level (pfx fmt : String) (args : List LogArg) (w : World) :
    sleepsOf (log_level pfx fmt args w).trace = sleepsOf w.trace := by
  simp [log_level, _log, _log_write, sleepsOf, List.filter_append]

theorem sys_errno_of_neg (c : Call) (r : SysRes) (w : World) (h : r.res < 0) :
    (sys c r w).errno = r.errno := by
  simp [sys, h]

theorem replicate_snoc (n : Nat) (c : Call) (l : List Call) :
    (l ++ [c]) ++ List.replicate n c = l ++ List.replicate (n + 1) c := by
  simp [List.replicate_succ]

/-! ## Retry on interruption -/

theorem safe_read_loop_eintr (fd : Int) (buf : Nat) (len : Int) (succ : SysRes)
    (rest : List SysRes) (hs : 0 ≤ succ.res) :
    ∀ (fails : List SysRes) (bytes : List Nat) (w : World),
      (∀ r ∈ fails, r.res < 0 ∧ r.errno = EINTR) →
      ∃ bytes1 w1, safe_read_loop fd buf len (fails ++ succ :: rest) bytes w
          = .ret (succ.res, bytes1) w1 ∧ w1.script = rest ∧
        callsOf w1.trace
          = callsOf w.trace ++ List.replicate (fails.length + 1) (Call.read fd buf len) := by
  intro fails
  induction fails with
  | nil =>
    intro bytes w _
    refine ⟨store bytes succ.data, sys (Call.read fd buf len) succ ⟨rest, w.errno, w.trace, w.cf, w.sink⟩,
      ?_, rfl, ?_⟩
    · simp only [List.nil_append, safe_read_loop]
      rw [if_neg (fun h => absurd h.1 (not_lt.mpr hs))]
    · rw [callsOf_sys]; rfl
  | cons r fails ih =>
    intro bytes w hf
    have hr := hf r (List.mem_cons_self _ _)
    obtain ⟨b1, w1, h1, h2, h3⟩ := ih (store bytes r.data)
      (sys (Call.read fd buf len) r ⟨fails ++ succ :: rest, w.errno, w.trace, w.cf, w.sink⟩)
      (fun x hx => hf x (List.mem_cons_of_mem _ hx))
    refine ⟨b1, w1, ?_, h2, ?_⟩
    · simp only [List.cons_append, safe_read_loop]
      rw [if_pos ⟨hr.1, by rw [sys_errno_of_neg _ _ _ hr.1]; exact hr.2⟩]
      exact h1
    · rw [h3, callsOf_sys, replicate_snoc]; rfl

theorem safe_write_loop_eintr (fd : Int) (buf : Nat) (len : Int) (succ : SysRes)
    (rest : List SysRes) (hs : 0 ≤ succ.res) :
    ∀ (fails : List SysRes) (w : World),
      (∀ r ∈ fails, r.res < 0 ∧ r.errno = EINTR) →
      ∃ w1, safe_write_loop fd buf len (fails ++ succ :: rest) w = .ret succ.res w1 ∧
        w1.script = rest ∧
        callsOf w1.trace
          = callsOf w.trace ++ List.replicate (fails.length + 1) (Call.write fd buf len) := by
  intro fails
  induction fails with
  | nil =>
    intro w _
    refine ⟨sys (Call.write fd buf len) succ ⟨rest, w.errno, w.trace, w.cf, w.sink⟩, ?_, rfl, ?_⟩
    · simp only [List.nil_append, safe_write_loop]
      rw [if_neg (fun h => absurd h.1 (not_lt.mpr hs))]
    · rw [callsOf_sys]; rfl
  | cons r fails ih =>
    intro w hf
    have hr := hf r (List.mem_cons_self _ _)
    obtain ⟨w1, h1, h2, h3⟩ := ih
      (sys (Call.write fd buf len) r ⟨fails ++ succ :: rest, w.errno, w.trace, w.cf, w.sink⟩)
      (fun x hx => hf x (List.mem_cons_of_mem _ hx))
    refine ⟨w1, ?_, h2, ?_⟩
    · simp only [List.cons_append, safe_write_loop]
      rw [if_pos ⟨hr.1, by rw [sys_errno_of_neg _ _ _ hr.1]; exact hr.2⟩]
      exact h1
    · rw [h3, callsOf_sys, replicate_snoc]; rfl

theorem safe_close_loop_eintr (fd : Int) (succ : SysRes) (rest : List SysRes)
    (hs : 0 ≤ succ.res) :
    ∀ (fails : List SysRes) (w : World),
      (∀ r ∈ fails, r.res < 0 ∧ r.errno = EINTR) →
      ∃ w1, safe_close_loop fd (fails ++ succ :: rest) w = .ret succ.res w1 ∧
        w1.script = rest ∧
        callsOf w1.trace
          = callsOf w.trace ++ List.replicate (fails.length + 1) (Call.close fd) := by
  intro fails
  induction fails with
  | nil =>
    intro w _
    refine ⟨sys (Call.close fd) succ ⟨rest, w.errno, w.trace, w.cf, w.sink⟩, ?_, rfl, ?_⟩
    · simp only [List.nil_append, safe_close_loop]
      rw [if_neg (fun h => absurd h.1 (not_lt.mpr hs))]
    · rw [callsOf_sys]; rfl
  | cons r fails ih =>
    intro w hf
    have hr := hf r (List.mem_cons_self _ _)
    obtain ⟨w1, h1, h2, h3⟩ := ih
      (sys (Call.close fd) r ⟨fails ++ succ :: rest, w.errno, w.trace, w.cf, w.sink⟩)
      (fun x hx => hf x (List.mem_cons_of_mem _ hx))
    refine ⟨w1, ?_, h2, ?_⟩
    · simp only [List.cons_append, safe_close_loop]
      rw [if_pos ⟨hr.1, by rw [sys_errno_of_neg _ _ _ hr.1]; exact hr.2⟩]
      exact h1
    · rw [h3, callsOf_sys, replicate_snoc]; rfl

theorem safe_recv_loop_eintr (fd : Int) (buf : Nat) (len flags : Int) (succ : SysRes)
    (rest : List SysRes) (hs : 0 ≤ succ.res) :
    ∀ (fails : List SysRes) (bytes : List Nat) (w : World),
      (∀ r ∈ fails, r.res < 0 ∧ r.errno = EINTR) →
      ∃ bytes1 w1, safe_recv_loop fd buf len flags (fails ++ succ :: rest) bytes w
          = .ret (succ.res, bytes1) w1 ∧ w1.script = rest ∧
        callsOf w1.trace
          = callsOf w.trace ++ List.replicate (fails.length + 1) (Call.recv fd buf len flags) := by
  intro fails
  induction fails with
  | nil =>
    intro bytes w _
    have hn : ¬ succ.res < 0 := not_lt.mpr hs
    simp only [List.nil_append, safe_recv_loop]
    rw [if_neg (fun h => hn h.1), if_neg hn]
    split
    · exact ⟨_, _, rfl, rfl, by rw [log_noise, callsOf_log_level, callsOf_sys]; rfl⟩
    · exact ⟨_, _, rfl, rfl, by rw [callsOf_sys]; rfl⟩
  | cons r fails ih =>
    intro bytes w hf
    have hr := hf r (List.mem_cons_self _ _)
    obtain ⟨b1, w1, h1, h2, h3⟩ := ih (store bytes r.data)
      (sys (Call.recv fd buf len flags) r ⟨fails ++ succ :: rest, w.errno, w.trace, w.cf, w.sink⟩)
      (fun x hx => hf x (List.mem_cons_of_mem _ hx))
    refine ⟨b1, w1, ?_, h2, ?_⟩
    · simp only [List.cons_append, safe_recv_loop]
      rw [if_pos ⟨hr.1, by rw [sys_errno_of_neg _ _ _ hr.1]; exact hr.2⟩]
      exact h1
    · rw [h3, callsOf_sys, replicate_snoc]; rfl

theorem safe_send_loop_eintr (fd : Int) (buf : Nat) (len flags : Int) (succ : SysRes)
    (rest : List SysRes) (hs : 0 ≤ succ.res) :
    ∀ (fails : List SysRes) (w : World),
      (∀ r ∈ fails, r.res < 0 ∧ r.errno = EINTR) →
      ∃ w1, safe_send_loop fd buf len flags (fails ++ succ :: rest) w = .ret succ.res w1 ∧
        w1.script = rest ∧
        callsOf w1.trace
          = callsOf w.trace ++ List.replicate (fails.length + 1) (Call.send fd buf len flags) := by
  intro fails
  induction fails with
  | nil =>
    intro w _
    have hn : ¬ succ.res < 0 := not_lt.mpr hs
    simp only [List.nil_append, safe_send_loop]
    rw [if_neg (fun h => hn h.1), if_neg hn]
    split
    · exact ⟨_, rfl, rfl, by rw [log_noise, callsOf_log_level, callsOf_sys]; rfl⟩
    · exact ⟨_, rfl, rfl, by rw [callsOf_sys]; rfl⟩
  | cons r fails ih =>
    intro w hf
    have hr := hf r (List.mem_cons_self _ _)
    obtain ⟨w1, h1, h2, h3⟩ := ih
      (sys (Call.send fd buf len flags) r ⟨fails ++ succ :: rest, w.errno, w.trace, w.cf, w.sink⟩)
      (fun x hx => hf x (List.mem_cons_of_mem _ hx))
    refine ⟨w1, ?_, h2, ?_⟩
    · simp only [List.cons_append, safe_send_loop]
      rw [if_pos ⟨hr.1, by rw [sys_errno_of_neg _ _ _ hr.1]; exact hr.2⟩]
      exact h1
    · rw [h3, callsOf_sys, replicate_snoc]; rfl

theorem safe_recvmsg_loop_eintr (fd : Int) (msg : Nat) (flags : Int) (succ : SysRes)
    (rest : List SysRes) (hs : 0 ≤ succ.res) :
    ∀ (fails : List SysRes) (w : World),
      (∀ r ∈ fails, r.res < 0 ∧ r.errno = EINTR) →
      ∃ w1, safe_recvmsg_loop fd msg flags (fails ++ succ :: rest) w = .ret succ.res w1 ∧
        w1.script = rest ∧
        callsOf w1.trace
          = callsOf w.trace ++ List.replicate (fails.length + 1) (Call.recvmsg fd msg flags) := by
  intro fails
  induction fails with
  | nil =>
    intro w _
    have hn : ¬ succ.res < 0 := not_lt.mpr hs
    simp only [List.nil_append, safe_recvmsg_loop]
    rw [if_neg (fun h => hn h.1), if_neg hn]
    split
    · exact ⟨_, rfl, rfl, by rw [log_noise, callsOf_log_level, callsOf_sys]; rfl⟩
    · exact ⟨_, rfl, rfl, by rw [callsOf_sys]; rfl⟩
  | cons r fails ih =>
    intro w hf
    have hr := hf r (List.mem_cons_self _ _)
    obtain ⟨w1, h1, h2, h3⟩ := ih
      (sys (Call.recvmsg fd msg flags) r ⟨fails ++ succ :: rest, w.errno, w.trace, w.cf, w.sink⟩)
      (fun x hx => hf x (List.mem_cons_of_mem _ hx))
    refine ⟨w1, ?_, h2, ?_⟩
    · simp only [List.cons_append, safe_recvmsg_loop]
      rw [if_pos ⟨hr.1, by rw [sys_errno_of_neg _ _ _ hr.1]; exact hr.2⟩]
      exact h1
    · rw [h3, callsOf_sys, replicate_snoc]; rfl

theorem safe_sendmsg_loop_eintr (fd : Int) (msg : Nat) (iov_len controllen flags : Int)
    (succ : SysRes) (rest : List SysRes) (hs : 0 ≤ succ.res) :
    ∀ (fails : List SysRes) (k : Nat) (w : World),
      (∀ r ∈ fails, r.res < 0 ∧ r.errno = EINTR) →
      ∃ w1, safe_sendmsg_loop fd msg iov_len controllen flags (fails ++ succ :: rest) k w
          = .ret succ.res w1 ∧ w1.script = rest ∧
        callsOf w1.trace
          = callsOf w.trace ++ List.replicate (fails.length + 1) (Call.sendmsg fd msg flags) := by
  intro fails
  induction fails with
  | nil =>
    intro k w _
    have hn : ¬ succ.res < 0 := not_lt.mpr hs
    simp only [List.nil_append, safe_sendmsg_loop]
    rw [if_neg (fun h => hn h.1), if_neg hn]
    split
    · exact ⟨_, rfl, rfl, by rw [log_noise, callsOf_log_level, callsOf_sys]; rfl⟩
    · exact ⟨_, rfl, rfl, by rw [callsOf_sys]; rfl⟩
  | cons r fails ih =>
    intro k w hf
    have hr := hf r (List.mem_cons_self _ _)
    obtain ⟨w1, h1, h2, h3⟩ := ih k
      (sys (Call.sendmsg fd msg flags) r ⟨fails ++ succ :: rest, w.errno, w.trace, w.cf, w.sink⟩)
      (fun x hx => hf x (List.mem_cons_of_mem _ hx))
    refine ⟨w1, ?_, h2, ?_⟩
    · simp only [List.cons_append, safe_sendmsg_loop]
      rw [if_pos ⟨hr.1, by rw [sys_errno_of_neg _ _ _ hr.1]; exact hr.2⟩]
      exact h1
    · rw [h3, callsOf_sys, replicate_snoc]; rfl

/-! ## Properties of the wrappers -/

/-- C3: when the primitive fails with `EINTR` on its first `N` invocations
(`fails`, `N = fails.length`) and succeeds on the next (`succ`), each of
`safe_read`, `safe_write`, `safe_recv`, `safe_send`, `safe_close`, `safe_recvmsg`
and `safe_sendmsg` returns exactly the success result and has made exactly
`N + 1` calls of the primitive, all with the arguments it was given. -/
theorem safe_wrappers_retry_on_eintr (fails : List SysRes) (succ : SysRes)
    (rest : List SysRes) (w : World) (hw : w.script = fails ++ succ :: rest)
    (hf : ∀ r ∈ fails, r.res < 0 ∧ r.errno = EINTR) (hs : 0 ≤ succ.res) :
    (∀ fd buf bytes len, ∃ bytes1 w1,
        safe_read fd buf bytes len w = .ret (succ.res, bytes1) w1 ∧ w1.script = rest ∧
        callsOf w1.trace
          = callsOf w.trace ++ List.replicate (fails.length + 1) (Call.read fd buf len)) ∧
    (∀ fd buf len, ∃ w1,
        safe_write fd buf len w = .ret succ.res w1 ∧ w1.script = rest ∧
        callsOf w1.trace
          = callsOf w.trace ++ List.replicate (fails.length + 1) (Call.write fd buf len)) ∧
    (∀ fd buf bytes len flags, ∃ bytes1 w1,
        safe_recv fd buf bytes len flags w = .ret (succ.res, bytes1) w1 ∧ w1.script = rest ∧
        callsOf w1.trace
          = callsOf w.trace ++ List.replicate (fails.length + 1) (Call.recv fd buf len flags)) ∧
    (∀ fd buf len flags, ∃ w1,
        safe_send fd buf len flags w = .ret succ.res w1 ∧ w1.script = rest ∧
        callsOf w1.trace
          = callsOf w.trace ++ List.replicate (fails.length + 1) (Call.send fd buf len flags)) ∧
    (∀ fd, ∃ w1,
        safe_close fd w = .ret succ.res w1 ∧ w1.script = rest ∧
        callsOf w1.trace
          = callsOf w.trace ++ List.replicate (fails.length + 1) (Call.close fd)) ∧
    (∀ fd msg flags, ∃ w1,
        safe_recvmsg fd msg flags w = .ret succ.res w1 ∧ w1.script = rest ∧
        callsOf w1.trace
          = callsOf w.trace ++ List.replicate (fails.length + 1) (Call.recvmsg fd msg flags)) ∧
    (∀ fd msg iov_len controllen flags, ∃ w1,
        safe_sendmsg fd msg iov_len controllen flags w = .ret succ.res w1 ∧ w1.script = rest ∧
        callsOf w1.trace
          = callsOf w.trace ++ List.replicate (fails.length + 1) (Call.sendmsg fd msg flags)) := by
  refine ⟨?_, ?_, ?_, ?_, ?_, ?_, ?_⟩
  · intro fd buf bytes len
    unfold safe_read
    rw [hw]
    exact safe_read_loop_eintr fd buf len succ rest hs fails bytes w hf
  · intro fd buf len
    unfold safe_write
    rw [hw]
    exact safe_write_loop_eintr fd buf len succ rest hs fails w hf
  · intro fd buf bytes len flags
    unfold safe_recv
    rw [hw]
    exact safe_recv_loop_eintr fd buf len flags succ rest hs fails bytes w hf
  · intro fd buf len flags
    unfold safe_send
    rw [hw]
    exact safe_send_loop_eintr fd buf len flags succ rest hs fails w hf
  · intro fd
    unfold safe_close
    rw [hw]
    exact safe_close_loop_eintr fd succ rest hs fails w hf
  · intro fd msg flags
    unfold safe_recvmsg
    rw [hw]
    exact safe_recvmsg_loop_eintr fd msg flags succ rest hs fails w hf
  · intro fd msg iov_len controllen flags
    unfold safe_sendmsg
    rw [hw]
    exact safe_sendmsg_loop_eintr fd msg iov_len controllen flags succ rest hs fails 0 w hf

/-- C3 with two interruptions before a `close` that succeeds: three calls of `close(7)`. -/
theorem safe_wrappers_retry_on_eintr_witness :
    (⟨[eintr, eintr, ⟨0, 0, []⟩], 0, [], cf_zero, []⟩ : World).script
        = [eintr, eintr] ++ (⟨0, 0, []⟩ : SysRes) :: [] ∧
      (∀ r ∈ [eintr, eintr], r.res < 0 ∧ r.errno = EINTR) ∧
      (0 : Int) ≤ (⟨0, 0, []⟩ : SysRes).res ∧
      ∃ w1, safe_close 7 ⟨[eintr, eintr, ⟨0, 0, []⟩], 0, [], cf_zero, []⟩ = .ret 0 w1 ∧
        w1.script = [] ∧
        callsOf w1.trace = [] ++ List.replicate 3 (Call.close 7) :=
  ⟨rfl, by decide, by decide,
    (safe_wrappers_retry_on_eintr [eintr, eintr] ⟨0, 0, []⟩ []
      ⟨[eintr, eintr, ⟨0, 0, []⟩], 0, [], cf_zero, []⟩ rfl (by decide) (by decide)).2.2.2.2.1 7⟩

/-! ## Logging and `errno` -/

theorem errno_after_of_nonneg (r : SysRes) (e : Nat) (h : 0 ≤ r.res) : errno_after r e = e := by
  unfold errno_after
  rw [if_neg (not_lt.mpr h)]

theorem sink_next_ok (e : Nat) (s : Nat × List SysRes) (h : s.1 = e ∧ SinkOk s.2) :
    (errno_after (sink_next s.2).1 s.1, (sink_next s.2).2).1 = e ∧
      SinkOk (errno_after (sink_next s.2).1 s.1, (sink_next s.2).2).2 := by
  obtain ⟨e0, l⟩ := s
  obtain ⟨h1, h2⟩ := h
  cases l with
  | nil =>
    refine ⟨?_, ?_⟩
    · simpa [sink_next, errno_after] using h1
    · intro r hr
      simp [sink_next] at hr
  | cons r rest =>
    refine ⟨?_, ?_⟩
    · show errno_after r e0 = e
      rw [errno_after_of_nonneg r e0 (h2 r (List.mem_cons_self _ _))]
      exact h1
    · intro x hx
      exact h2 x (List.mem_cons_of_mem _ hx)

theorem sink_retry_ok (e : Nat) (s : Nat × List SysRes) (h : s.1 = e ∧ SinkOk s.2) :
    (sink_retry s.2 s.1).1 = e ∧ SinkOk (sink_retry s.2 s.1).2 := by
  obtain ⟨e0, l⟩ := s
  obtain ⟨h1, h2⟩ := h
  cases l with
  | nil =>
    refine ⟨h1, ?_⟩
    intro r hr
    simp [sink_retry] at hr
  | cons r rest =>
    have hr : 0 ≤ r.res := h2 r (List.mem_cons_self _ _)
    have hn : ¬ (r.res < 0 ∧ errno_after r e0 = EINTR) := fun hc => absurd hc.1 (not_lt.mpr hr)
    simp only [sink_retry]
    rw [if_neg hn, errno_after_of_nonneg r e0 hr]
    exact ⟨h1, fun x hx => h2 x (List.mem_cons_of_mem _ hx)⟩

/-- The loop `_log_write` runs on its sink is the loop of `safe_write`: whenever
`safe_write` returns, `sink_retry` on the same outcomes leaves the same `errno`
and the same outcomes unused. -/
theorem sink_retry_eq_safe_write_loop (fd : Int) (buf : Nat) (len : Int) :
    ∀ (l : List SysRes) (w : World) (res : Int) (w1 : World),
      safe_write_loop fd buf len l w = .ret res w1 →
      sink_retry l w.errno = (w1.errno, w1.script) := by
  intro l
  induction l with
  | nil => intro w res w1 h; simp [safe_write_loop] at h
  | cons r rest ih =>
    intro w res w1 h
    simp only [safe_write_loop] at h
    have herr : (sys (Call.write fd buf len) r ⟨rest, w.errno, w.trace, w.cf, w.sink⟩).errno
        = errno_after r w.errno := by
      simp [sys, errno_after]
    simp only [sink_retry]
    split at h
    · rename_i hc
      rw [if_pos ⟨hc.1, herr.symm.trans hc.2⟩, ← herr]
      exact ih _ res w1 h
    · rename_i hc
      rw [if_neg (fun hx => hc ⟨hx.1, herr.trans hx.2⟩)]
      injection h with _ hw
      rw [← hw, herr]
      rfl

/-- The loop `_log_write` runs on its sink is also the loop of `safe_close`. -/
theorem sink_retry_eq_safe_close_loop (fd : Int) :
    ∀ (l : List SysRes) (w : World) (res : Int) (w1 : World),
      safe_close_loop fd l w = .ret res w1 →
      sink_retry l w.errno = (w1.errno, w1.script) := by
  intro l
  induction l with
  | nil => intro w res w1 h; simp [safe_close_loop] at h
  | cons r rest ih =>
    intro w res w1 h
    simp only [safe_close_loop] at h
    have herr : (sys (Call.close fd) r ⟨rest, w.errno, w.trace, w.cf, w.sink⟩).errno
        = errno_after r w.errno := by
      simp [sys, errno_after]
    simp only [sink_retry]
    split at h
    · rename_i hc
      rw [if_pos ⟨hc.1, herr.symm.trans hc.2⟩, ← herr]
      exact ih _ res w1 h
    · rename_i hc
      rw [if_neg (fun hx => hc ⟨hx.1, herr.trans hx.2⟩)]
      injection h with _ hw
      rw [← hw, herr]
      rfl

/-- A log line whose sink calls all succeed leaves `errno` as it was. -/
theorem log_level_sink_ok (pfx fmt : String) (args : List LogArg) (w : World)
    (h : SinkOk w.sink) :
    (log_level pfx fmt args w).errno = w.errno ∧ SinkOk (log_level pfx fmt args w).sink := by
  have g0 : (w.errno, w.sink).1 = w.errno ∧ SinkOk (w.errno, w.sink).2 := ⟨rfl, h⟩
  have g1 := sink_next_ok w.errno _ g0
  have g2 := sink_retry_ok w.errno _ g1
  have g3 := sink_retry_ok w.errno _ g2
  simp only [log_level, _log, _log_write]
  split_ifs <;>
    first
    | exact g0
    | exact g1
    | exact g3
    | exact sink_next_ok w.errno _ g0
    | exact sink_next_ok w.errno _ g1
    | exact sink_next_ok w.errno _ g3

/-! ## The bounded retry of `safe_sendmsg` -/

theorem callsOf_select_sleep (w : World) : callsOf (select_sleep w).trace = callsOf w.trace := by
  simp [select_sleep, callsOf, List.filterMap_append]

theorem sleepsOf_select_sleep (w : World) :
    sleepsOf (select_sleep w).trace = sleepsOf w.trace + 1 := by
  simp [select_sleep, sleepsOf, List.filter_append]

theorem select_sleep_sink (w : World) : (select_sleep w).sink = w.sink := rfl

theorem EMSGSIZE_ne_EINTR : EMSGSIZE ≠ EINTR := by decide

/-- With log sinks that work, 21 failures with `EMSGSIZE` make `safe_sendmsg` call
`sendmsg` 21 times, sleep 20 times and return the last result. -/
theorem safe_sendmsg_loop_emsgsize (fd : Int) (msg : Nat) (iov_len controllen flags : Int)
    (last : SysRes) (rest : List SysRes) (hl : last.res < 0 ∧ last.errno = EMSGSIZE) :
    ∀ (init : List SysRes) (k : Nat) (w : World), k + init.length = 20 →
      (∀ r ∈ init, r.res < 0 ∧ r.errno = EMSGSIZE) → SinkOk w.sink →
      ∃ w1, safe_sendmsg_loop fd msg iov_len controllen flags (init ++ last :: rest) k w
          = .ret last.res w1 ∧ w1.script = rest ∧
        callsOf w1.trace
          = callsOf w.trace ++ List.replicate (init.length + 1) (Call.sendmsg fd msg flags) ∧
        sleepsOf w1.trace = sleepsOf w.trace + init.length := by
  intro init
  induction init with
  | nil =>
    intro k w hk _ _
    have hk20 : ¬ k < 20 := by simp at hk; omega
    have he : ∀ W : World, (sys (Call.sendmsg fd msg flags) last W).errno = EMSGSIZE :=
      fun W => by rw [sys_errno_of_neg _ _ _ hl.1]; exact hl.2
    simp only [List.nil_append, safe_sendmsg_loop]
    rw [if_neg (fun h => EMSGSIZE_ne_EINTR ((he _).symm.trans h.2)), if_pos hl.1,
      if_neg (fun h => hk20 h.2)]
    refine ⟨_, rfl, rfl, ?_, ?_⟩
    · rw [log_warning, callsOf_log_level, callsOf_sys]; rfl
    · rw [log_warning, sleepsOf_log_level, sleepsOf_sys]; rfl
  | cons r init ih =>
    intro k w hk hi hsink
    have hr := hi r (List.mem_cons_self _ _)
    have hk20 : k < 20 := by simp at hk; omega
    have he : ∀ W : World, (sys (Call.sendmsg fd msg flags) r W).errno = EMSGSIZE :=
      fun W => by rw [sys_errno_of_neg _ _ _ hr.1]; exact hr.2
    have hlog : ∀ (f : String) (a : List LogArg) (W : World), SinkOk W.sink →
        (log_warning f a W).errno = W.errno ∧ SinkOk (log_warning f a W).sink :=
      fun f a W hW => log_level_sink_ok "WARNING" f a W hW
    have hs1 : ∀ l : List SysRes, SinkOk (sys (Call.sendmsg fd msg flags) r
        ⟨l, w.errno, w.trace, w.cf, w.sink⟩).sink := fun _ => hsink
    have step : ∀ W : World, SinkOk W.sink →
        callsOf W.trace = callsOf w.trace ++ [Call.sendmsg fd msg flags] →
        sleepsOf W.trace = sleepsOf w.trace + 1 →
        ∃ w1, safe_sendmsg_loop fd msg iov_len controllen flags (init ++ last :: rest)
            (k + 1) W = .ret last.res w1 ∧ w1.script = rest ∧
          callsOf w1.trace = callsOf w.trace ++
            List.replicate ((r :: init).length + 1) (Call.sendmsg fd msg flags) ∧
          sleepsOf w1.trace = sleepsOf w.trace + (r :: init).length := by
      intro W hW hc hsl
      obtain ⟨w1, h1, h2, h3, h4⟩ := ih (k + 1) W (by simp at hk ⊢; omega)
        (fun x hx => hi x (List.mem_cons_of_mem _ hx)) hW
      refine ⟨w1, h1, h2, ?_, ?_⟩
      · rw [h3, hc, replicate_snoc]
        rfl
      · rw [h4, hsl]
        simp only [List.length_cons]
        omega
    simp only [List.cons_append, safe_sendmsg_loop]
    split_ifs with c1 c2 c3 c4
    · exact absurd ((he _).symm.trans c1.2) EMSGSIZE_ne_EINTR
    · apply step
      · rw [select_sleep_sink]
        exact (hlog _ _ _ (hlog _ _ _ (hs1 _)).2).2
      · rw [callsOf_select_sleep, log_warning, callsOf_log_level, log_warning,
          callsOf_log_level, callsOf_sys]
      · rw [sleepsOf_select_sleep, log_warning, sleepsOf_log_level, log_warning,
          sleepsOf_log_level, sleepsOf_sys]
    · exact absurd ⟨((hlog _ _ _ (hs1 _)).1).trans (he _), hk20⟩ c3
    · exact absurd hr.1 c2
    · exact absurd hr.1 c2

/-- Whatever the kernel and the log sinks do, one run of the loop sleeps at most
`20 - msgerr_count` times. -/
theorem safe_sendmsg_loop_sleeps_le (fd : Int) (msg : Nat) (iov_len controllen flags : Int) :
    ∀ (script : List SysRes) (k : Nat) (w : World), k ≤ 20 →
      sleepsOf (safe_sendmsg_loop fd msg iov_len controllen flags script k w).world.trace + k
        ≤ sleepsOf w.trace + 20 := by
  intro script
  induction script with
  | nil =>
    intro k w hk
    simp only [safe_sendmsg_loop, Outcome.world]
    omega
  | cons r script ih =>
    intro k w hk
    simp only [safe_sendmsg_loop]
    split_ifs with h1 h2 h3 h4
    · have := ih k (sys (Call.sendmsg fd msg flags) r
        ⟨script, w.errno, w.trace, w.cf, w.sink⟩) hk
      rw [sleepsOf_sys] at this
      exact this
    · have step : ∀ W : World, sleepsOf W.trace = sleepsOf w.trace + 1 →
          sleepsOf (safe_sendmsg_loop fd msg iov_len controllen flags script (k + 1)
            W).world.trace + k ≤ sleepsOf w.trace + 20 := by
        intro W hW
        have := ih (k + 1) W (by omega)
        omega
      apply step
      rw [sleepsOf_select_sleep, log_warning, sleepsOf_log_level, log_warning,
        sleepsOf_log_level, sleepsOf_sys]
    · simp only [Outcome.world]
      rw [log_warning, sleepsOf_log_level, sleepsOf_sys]
      simp only
      omega
    · simp only [Outcome.world]
      rw [log_noise, sleepsOf_log_level, sleepsOf_sys]
      simp only
      omega
    · simp only [Outcome.world]
      rw [sleepsOf_sys]
      simp only
      omega

/-- What holds of the `EMSGSIZE` policy of `safe_sendmsg`: when `sendmsg` fails
with `EMSGSIZE` on every invocation (the 20 outcomes `init` and then `last`) and
the log sinks work, `safe_sendmsg` sleeps and retries exactly 20 times, makes 21
calls of `sendmsg` in total and returns the negative result; and whatever the
kernel and the log sinks do, one call of `safe_sendmsg` sleeps at most 20
times. -/
theorem safe_sendmsg_emsgsize_bounded (init : List SysRes) (last : SysRes)
    (rest : List SysRes) (w : World) (fd : Int) (msg : Nat) (iov_len controllen flags : Int)
    (hw : w.script = init ++ last :: rest) (hn : init.length = 20)
    (hi : ∀ r ∈ init, r.res < 0 ∧ r.errno = EMSGSIZE)
    (hl : last.res < 0 ∧ last.errno = EMSGSIZE) (hsink : SinkOk w.sink) :
    (∃ w1, safe_sendmsg fd msg iov_len controllen flags w = .ret last.res w1 ∧
        last.res < 0 ∧ w1.script = rest ∧
        callsOf w1.trace
          = callsOf w.trace ++ List.replicate 21 (Call.sendmsg fd msg flags) ∧
        sleepsOf w1.trace = sleepsOf w.trace + 20) ∧
      ∀ w2 : World,
        sleepsOf (safe_sendmsg fd msg iov_len controllen flags w2).world.trace
          ≤ sleepsOf w2.trace + 20 := by
  constructor
  · obtain ⟨w1, h1, h2, h3, h4⟩ := safe_sendmsg_loop_emsgsize fd msg iov_len controllen flags
      last rest hl init 0 w (by omega) hi hsink
    refine ⟨w1, ?_, hl.1, h2, ?_, ?_⟩
    · unfold safe_sendmsg
      rw [hw]
      exact h1
    · rw [h3, hn]
    · rw [h4, hn]
  · intro w2
    have := safe_sendmsg_loop_sleeps_le fd msg iov_len controllen flags w2.script 0 w2
      (by omega)
    unfold safe_sendmsg
    omega

/-- The `EMSGSIZE` policy on a kernel that answers `EMSGSIZE` 21 times, with
working log sinks. -/
theorem safe_sendmsg_emsgsize_bounded_example :
    ∃ w1, safe_sendmsg 7 0 16 24 0 ⟨List.replicate 21 emsgsize, 0, [], cf_logging, []⟩
        = .ret emsgsize.res w1 ∧
      emsgsize.res < 0 ∧ w1.script = [] ∧
      callsOf w1.trace
        = callsOf ([] : List Event) ++ List.replicate 21 (Call.sendmsg 7 0 0) ∧
      sleepsOf w1.trace = sleepsOf ([] : List Event) + 20 :=
  (safe_sendmsg_emsgsize_bounded (List.replicate 20 emsgsize) emsgsize []
    ⟨List.replicate 21 emsgsize, 0, [], cf_logging, []⟩ 7 0 16 24 0 (by decide) (by decide)
    (by decide) (by decide) (by decide)).1

/-- C4 fails on the code: `errno` is tested after `log_warning` has run.  With
`sendmsg` failing with `EMSGSIZE` on every invocation and a log file that cannot
be opened, the `open` in `_log_write` leaves `EACCES` in `errno`, the test
`errno == EMSGSIZE` is false, and `safe_sendmsg` returns -1 after one `sendmsg`
and no sleep instead of 21 calls and 20 sleeps. -/
theorem safe_sendmsg_errno_lost_by_logging :
    world_log_unwritable.script = List.replicate 21 emsgsize ∧
      (emsgsize.res < 0 ∧ emsgsize.errno = EMSGSIZE) ∧
      (safe_sendmsg 7 0 16 24 0 world_log_unwritable).world.errno = EACCES ∧
      callsOf (safe_sendmsg 7 0 16 24 0 world_log_unwritable).world.trace
        = [Call.sendmsg 7 0 0] ∧
      sleepsOf (safe_sendmsg 7 0 16 24 0 world_log_unwritable).world.trace = 0 ∧
      ∃ w1, safe_sendmsg 7 0 16 24 0 world_log_unwritable = .ret (-1) w1 := by
  refine ⟨rfl, by decide, by decide, by decide, by decide, ⟨_, rfl⟩⟩

/-! ## The cached clock -/

theorem get_cached_time_cache (s : TimeState) :
    (get_cached_time s).2.time_cache = (get_cached_time s).1 := by
  unfold get_cached_time
  split
  · rfl
  · rfl

theorem get_cached_time_of_set (s : TimeState) (h : s.time_cache ≠ 0) :
    get_cached_time s = (s.time_cache, s) := by
  unfold get_cached_time
  rw [if_neg h]

theorem cached_times_of_set :
    ∀ (n : Nat) (s : TimeState), s.time_cache ≠ 0 → ∀ v ∈ cached_times n s, v = s.time_cache := by
  intro n
  induction n with
  | zero => intro s _ v hv; simp [cached_times] at hv
  | succ n ih =>
    intro s hs v hv
    simp only [cached_times, get_cached_time_of_set s hs, List.mem_cons] at hv
    rcases hv with hv | hv
    · exact hv
    · exact ih s hs v hv

/-- C5 (as the code has it): when a call of `get_cached_time` returns a non-zero
value, every further call made before a `reset_time_cache` returns that same
value, whatever the system clock reports meanwhile; and after `reset_time_cache`
the next `get_cached_time` returns the value the system clock reports at that
call. -/
theorem get_cached_time_stable (s : TimeState) (n : Nat) (h : (get_cached_time s).1 ≠ 0) :
    (∀ v ∈ cached_times n (get_cached_time s).2, v = (get_cached_time s).1) ∧
      ∀ s2 : TimeState,
        (get_cached_time (reset_time_cache s2)).1 = usec_of (s2.clock s2.reads) ∧
          (get_cached_time (reset_time_cache s2)).2.reads = s2.reads + 1 := by
  constructor
  · intro v hv
    have hc := get_cached_time_cache s
    have := cached_times_of_set n (get_cached_time s).2 (by rw [hc]; exact h) v hv
    rw [this, hc]
  · intro s2
    simp [get_cached_time, reset_time_cache, get_time_usec]

/-- C5 (as the code has it) on a clock that always reads 1 s 5 µs. -/
theorem get_cached_time_stable_witness :
    (get_cached_time ⟨0, fun _ => (1, 5), 0⟩).1 ≠ 0 ∧
      (∀ v ∈ cached_times 3 (get_cached_time ⟨0, fun _ => (1, 5), 0⟩).2,
        v = (get_cached_time ⟨0, fun _ => (1, 5), 0⟩).1) :=
  ⟨by simp [get_cached_time, get_time_usec, usec_of, USEC],
    (get_cached_time_stable ⟨0, fun _ => (1, 5), 0⟩ 3
      (by simp [get_cached_time, get_time_usec, usec_of, USEC])).1⟩

/-- C5 as stated fails when the clock reads 0, the value that marks the cache as
unset: two calls of `get_cached_time` with no reset between them return 0 and
then 5. -/
theorem get_cached_time_zero_reading_not_cached :
    (get_cached_time ⟨0, clock_zero_then_five, 0⟩).1 = 0 ∧
      (get_cached_time (get_cached_time ⟨0, clock_zero_then_five, 0⟩).2).1 = 5 ∧
      (get_cached_time ⟨0, clock_zero_then_five, 0⟩).1
        ≠ (get_cached_time (get_cached_time ⟨0, clock_zero_then_five, 0⟩).2).1 := by
  simp [get_cached_time, get_time_usec, usec_of, USEC, clock_zero_then_five]

/-! ## `hash2hex` and `pg_md5_encrypt` -/

theorem hash2hex_loop_spec (hash : List Nat) :
    ∀ (n i dst : Nat) (mem : List Nat), dst + 2 * n ≤ mem.length →
      (hash2hex_loop hash n i dst mem).2 = dst + 2 * n ∧
      (hash2hex_loop hash n i dst mem).1.length = mem.length ∧
      (∀ j, j < dst ∨ dst + 2 * n ≤ j → (hash2hex_loop hash n i dst mem).1[j]? = mem[j]?) ∧
      (∀ t, t < n →
        (hash2hex_loop hash n i dst mem).1[dst + 2 * t]?
            = some (hextbl.getD (hash.getD (i + t) 0 >>> 4) 0) ∧
          (hash2hex_loop hash n i dst mem).1[dst + 2 * t + 1]?
            = some (hextbl.getD (hash.getD (i + t) 0 &&& 15) 0)) := by
  intro n
  induction n with
  | zero =>
    intro i dst mem _
    simp [hash2hex_loop]
  | succ n ih =>
    intro i dst mem hlen
    simp only [hash2hex_loop]
    obtain ⟨h1, h2, h3, h4⟩ := ih (i + 1) (dst + 2)
      ((mem.set dst (hextbl.getD (hash.getD i 0 >>> 4) 0)).set (dst + 1)
        (hextbl.getD (hash.getD i 0 &&& 15) 0))
      (by simp only [List.length_set]; omega)
    refine ⟨by omega, by rw [h2]; simp only [List.length_set], ?_, ?_⟩
    · intro j hj
      rw [h3 j (by omega), List.getElem?_set_ne (by omega), List.getElem?_set_ne (by omega)]
    · intro t ht
      cases t with
      | zero =>
        simp only [Nat.mul_zero, Nat.add_zero]
        constructor
        · rw [h3 _ (by omega), List.getElem?_set_ne (by omega),
            List.getElem?_set_self (by omega)]
        · rw [h3 _ (by omega), List.getElem?_set_self (by simp only [List.length_set]; omega)]
      | succ t =>
        have e1 : dst + 2 * (t + 1) = dst + 2 + 2 * t := by omega
        have e2 : i + (t + 1) = i + 1 + t := by omega
        rw [e1, e2]
        exact h4 t (by omega)

theorem hexOf_length : ∀ l : List Nat, (hexOf l).length = 2 * l.length := by
  intro l
  induction l with
  | nil => rfl
  | cons b bs ih => simp only [hexOf, List.length_cons, ih]; omega

theorem hexOf_getElem :
    ∀ (l : List Nat) (t : Nat), t < l.length →
      (hexOf l)[2 * t]? = some (hexchar (l.getD t 0 / 16)) ∧
        (hexOf l)[2 * t + 1]? = some (hexchar (l.getD t 0 % 16)) := by
  intro l
  induction l with
  | nil => intro t ht; simp at ht
  | cons b bs ih =>
    intro t ht
    cases t with
    | zero => simp [hexOf]
    | succ t =>
      have e : 2 * (t + 1) = 2 * t + 1 + 1 := by omega
      rw [e]
      simp only [hexOf, List.getElem?_cons_succ, List.getD_cons_succ]
      exact ih t (by simpa using ht)

theorem hextbl_eq_hexchar : ∀ d, d < 16 → hextbl.getD d 0 = hexchar d := by decide

theorem hexchar_isLowerHex : ∀ d, d < 16 → isLowerHex (hexchar d) = true := by decide

theorem hextbl_nibbles (b : Nat) (hb : b < 256) :
    hextbl.getD (b >>> 4) 0 = hexchar (b / 16) ∧ hextbl.getD (b &&& 15) 0 = hexchar (b % 16) := by
  have e1 : b >>> 4 = b / 16 := Nat.shiftRight_eq_div_pow b 4
  have e2 : b &&& 15 = b % 16 := Nat.and_pow_two_sub_one_eq_mod b 4
  rw [e1, e2]
  exact ⟨hextbl_eq_hexchar _ (by omega), hextbl_eq_hexchar _ (by omega)⟩

theorem hexOf_isLowerHex :
    ∀ l : List Nat, (∀ b ∈ l, b < 256) → ∀ c ∈ hexOf l, isLowerHex c = true := by
  intro l
  induction l with
  | nil => intro _ c hc; simp [hexOf] at hc
  | cons b bs ih =>
    intro hl c hc
    have hb := hl b (List.mem_cons_self _ _)
    simp only [hexOf, List.mem_cons] at hc
    rcases hc with hc | hc | hc
    · rw [hc]; exact hexchar_isLowerHex _ (by omega)
    · rw [hc]; exact hexchar_isLowerHex _ (by omega)
    · exact ih (fun x hx => hl x (List.mem_cons_of_mem _ hx)) c hc

theorem getElem?_cons3 (a b c : Nat) (l : List Nat) (k : Nat) :
    (a :: b :: c :: l)[k + 3]? = l[k]? := by
  simp

theorem memcpy_md5 (dest : List Nat) (hd : 3 ≤ dest.length) :
    memcpy dest [109, 100, 53] 3 = 109 :: 100 :: 53 :: dest.drop 3 := by
  unfold memcpy
  have : List.take dest.length (List.take 3 [109, 100, 53]) = [109, 100, 53] := by
    rw [List.take_of_length_le (by simpa using hd)]
    rfl
  rw [this]
  rfl

/-- The buffer `pg_md5_encrypt` leaves, byte by byte. -/
theorem pg_md5_encrypt_bytes (md5 : MD5) (part1 part2 : List Nat) (part2len : Nat)
    (dest : List Nat) (hd : 36 ≤ dest.length) :
    (pg_md5_encrypt md5 part1 part2 part2len dest).dest.length = dest.length ∧
      (pg_md5_encrypt md5 part1 part2 part2len dest).dest[0]? = some 109 ∧
      (pg_md5_encrypt md5 part1 part2 part2len dest).dest[1]? = some 100 ∧
      (pg_md5_encrypt md5 part1 part2 part2len dest).dest[2]? = some 53 ∧
      (∀ t, t < 16 →
        (pg_md5_encrypt md5 part1 part2 part2len dest).dest[3 + 2 * t]?
            = some (hexchar ((digest md5 part1 part2 part2len).getD t 0 / 16)) ∧
          (pg_md5_encrypt md5 part1 part2 part2len dest).dest[3 + 2 * t + 1]?
            = some (hexchar ((digest md5 part1 part2 part2len).getD t 0 % 16))) ∧
      (pg_md5_encrypt md5 part1 part2 part2len dest).dest[35]? = some 0 ∧
      ∀ j, 36 ≤ j → (pg_md5_encrypt md5 part1 part2 part2len dest).dest[j]? = dest[j]? := by
  have hmem : (109 :: 100 :: 53 :: dest.drop 3).length = dest.length := by
    simp only [List.length_cons, List.length_drop]; omega
  obtain ⟨h1, h2, h3, h4⟩ := hash2hex_loop_spec (digest md5 part1 part2 part2len) 16 0 3
    (109 :: 100 :: 53 :: dest.drop 3) (by rw [hmem]; omega)
  have hout : (pg_md5_encrypt md5 part1 part2 part2len dest).dest
      = (hash2hex_loop (digest md5 part1 part2 part2len) 16 0 3
          (109 :: 100 :: 53 :: dest.drop 3)).1.set 35 0 := by
    simp only [pg_md5_encrypt, hash2hex, MD5_DIGEST_LENGTH, memcpy_md5 dest (by omega), digest]
    rw [show (hash2hex_loop (md5.MD5_Final (md5.MD5_Update (md5.MD5_Update md5.MD5_Init part1)
      (List.take part2len part2))) 16 0 3 (109 :: 100 :: 53 :: List.drop 3 dest)).2 = 35 from h1]
  rw [hout]
  refine ⟨by rw [List.length_set, h2, hmem], ?_, ?_, ?_, ?_, ?_, ?_⟩
  · rw [List.getElem?_set_ne (by omega), h3 0 (by omega)]; simp
  · rw [List.getElem?_set_ne (by omega), h3 1 (by omega)]; simp
  · rw [List.getElem?_set_ne (by omega), h3 2 (by omega)]; simp
  · intro t ht
    have hlen := md5.final_length (md5.MD5_Update (md5.MD5_Update md5.MD5_Init part1)
      (List.take part2len part2))
    have hbyte : (digest md5 part1 part2 part2len).getD t 0 < 256 := by
      have hlt : t < (digest md5 part1 part2 part2len).length := by
        unfold digest; rw [hlen]; exact ht
      rw [List.getD_eq_getElem _ 0 hlt]
      exact md5.final_byte _ _ (List.getElem_mem hlt)
    obtain ⟨n1, n2⟩ := hextbl_nibbles _ hbyte
    obtain ⟨g1, g2⟩ := h4 t ht
    rw [Nat.zero_add] at g1 g2
    constructor
    · rw [List.getElem?_set_ne (by omega), g1, n1]
    · rw [List.getElem?_set_ne (by omega), g2, n2]
  · rw [List.getElem?_set_self (by rw [h2, hmem]; omega)]
  · intro j hj
    rw [List.getElem?_set_ne (by omega), h3 j (by omega)]
    have e : j = j - 3 + 3 := by omega
    rw [e, getElem?_cons3, List.getElem?_drop, Nat.add_comm 3 (j - 3)]

/-- The first 36 bytes `pg_md5_encrypt` leaves in `dest`, in closed form. -/
theorem pg_md5_encrypt_take (md5 : MD5) (part1 part2 : List Nat) (part2len : Nat)
    (dest : List Nat) (hd : 36 ≤ dest.length) :
    (pg_md5_encrypt md5 part1 part2 part2len dest).dest.take 36
      = [109, 100, 53] ++ hexOf (digest md5 part1 part2 part2len) ++ [0] := by
  obtain ⟨b0, b1, b2, b3, b4, b5, _⟩ := pg_md5_encrypt_bytes md5 part1 part2 part2len dest hd
  have hdl : (digest md5 part1 part2 part2len).length = 16 := md5.final_length _
  have hhl : (hexOf (digest md5 part1 part2 part2len)).length = 32 := by
    rw [hexOf_length, hdl]
  have hR : [109, 100, 53] ++ hexOf (digest md5 part1 part2 part2len) ++ [0]
      = 109 :: 100 :: 53 :: (hexOf (digest md5 part1 part2 part2len) ++ [0]) := by
    simp
  rw [hR]
  apply List.ext_getElem?
  intro n
  rw [List.getElem?_take]
  by_cases hn : n < 36
  · rw [if_pos hn]
    by_cases h3 : n < 3
    · interval_cases n
      · rw [b1]; simp
      · rw [b2]; simp
      · rw [b3]; simp
    · by_cases h35 : n = 35
      · subst h35
        rw [b5, show (35 : Nat) = 32 + 3 from rfl, getElem?_cons3,
          List.getElem?_append_right (by omega), hhl]
        simp
      · obtain ⟨t, ht, hcase⟩ : ∃ t, t < 16 ∧ (n = 3 + 2 * t ∨ n = 3 + 2 * t + 1) :=
          ⟨(n - 3) / 2, by omega, by omega⟩
        obtain ⟨g1, g2⟩ := b4 t ht
        obtain ⟨k1, k2⟩ := hexOf_getElem (digest md5 part1 part2 part2len) t (by omega)
        rcases hcase with hc | hc
        · rw [hc, g1, show 3 + 2 * t = 2 * t + 3 from by omega, getElem?_cons3,
            List.getElem?_append_left (by omega), k1]
        · rw [hc, g2, show 3 + 2 * t + 1 = 2 * t + 1 + 3 from by omega, getElem?_cons3,
            List.getElem?_append_left (by omega), k2]
  · rw [if_neg hn]
    symm
    apply List.getElem?_eq_none
    simp only [List.length_cons, List.length_append, hhl, List.length_nil]
    omega

/-- C6: for every `part1`, `part2` and `part2len`, `pg_md5_encrypt` writes exactly
the 36 bytes at the front of `dest`: the characters "md5", the two-digit
lowercase hex encoding (high nibble first) of the 16 digest bytes in order,
which is 32 characters of `0-9a-f`, and a zero terminator; the bytes further on
stay as they were, and the 36 bytes depend on nothing but the digest. -/
theorem pg_md5_encrypt_output (md5 : MD5) (part1 part2 : List Nat) (part2len : Nat)
    (dest : List Nat) (hd : 36 ≤ dest.length) :
    (pg_md5_encrypt md5 part1 part2 part2len dest).dest.take 36
        = [109, 100, 53] ++ hexOf (digest md5 part1 part2 part2len) ++ [0] ∧
      (pg_md5_encrypt md5 part1 part2 part2len dest).dest.drop 36 = dest.drop 36 ∧
      (pg_md5_encrypt md5 part1 part2 part2len dest).dest.length = dest.length ∧
      (digest md5 part1 part2 part2len).length = 16 ∧
      (hexOf (digest md5 part1 part2 part2len)).length = 32 ∧
      (∀ c ∈ hexOf (digest md5 part1 part2 part2len), isLowerHex c = true) ∧
      (pg_md5_encrypt md5 part1 part2 part2len dest).ret = true ∧
      ∀ dest2 : List Nat, 36 ≤ dest2.length →
        (pg_md5_encrypt md5 part1 part2 part2len dest2).dest.take 36
          = (pg_md5_encrypt md5 part1 part2 part2len dest).dest.take 36 := by
  have hdl : (digest md5 part1 part2 part2len).length = 16 := md5.final_length _
  obtain ⟨b0, _, _, _, _, _, b6⟩ := pg_md5_encrypt_bytes md5 part1 part2 part2len dest hd
  refine ⟨pg_md5_encrypt_take md5 part1 part2 part2len dest hd, ?_, b0, hdl,
    by rw [hexOf_length, hdl], hexOf_isLowerHex _ (md5.final_byte _), rfl, ?_⟩
  · apply List.ext_getElem?
    intro n
    rw [List.getElem?_drop, List.getElem?_drop]
    exact b6 _ (by omega)
  · intro dest2 hd2
    rw [pg_md5_encrypt_take md5 part1 part2 part2len dest hd,
      pg_md5_encrypt_take md5 part1 part2 part2len dest2 hd2]

/-- C6 on the empty message and a 40-byte buffer: the output is
"md5d41d8cd98f00b204e9800998ecf8427e" and a terminator. -/
theorem pg_md5_encrypt_output_witness :
    36 ≤ (List.replicate 40 (255 : Nat)).length ∧
      (pg_md5_encrypt md5_of_empty [] [] 0 (List.replicate 40 255)).dest.take 36
        = [109, 100, 53] ++ hexOf (digest md5_of_empty [] [] 0) ++ [0] ∧
      (pg_md5_encrypt md5_of_empty [] [] 0 (List.replicate 40 255)).dest.drop 36
        = (List.replicate 40 255).drop 36 :=
  ⟨by decide,
    (pg_md5_encrypt_output md5_of_empty [] [] 0 (List.replicate 40 255) (by decide)).1,
    (pg_md5_encrypt_output md5_of_empty [] [] 0 (List.replicate 40 255) (by decide)).2.1⟩

/-- The hex string of the empty message's digest, spelled out. -/
theorem hexOf_md5_empty_digest :
    hexOf md5_empty_digest = bytes "d41d8cd98f00b204e9800998ecf8427e" := by
  decide

/-- C10 fails on the code: `memset(hash, 0, sizeof(*hash))` clears one byte.  On
return the local array `hash` holds a zero followed by the bytes 1 to 15 of the
digest, for every input; for the empty message these are `1d 8c d9 ... 7e`. -/
theorem pg_md5_encrypt_clears_one_byte :
    (∀ (md5 : MD5) (part1 part2 : List Nat) (part2len : Nat) (dest : List Nat),
        (pg_md5_encrypt md5 part1 part2 part2len dest).hash
          = 0 :: (digest md5 part1 part2 part2len).drop 1) ∧
      (pg_md5_encrypt md5_of_empty [] [] 0 (List.replicate 36 0)).hash
        = [0, 0x1d, 0x8c, 0xd9, 0x8f, 0x00, 0xb2, 0x04, 0xe9, 0x80, 0x09, 0x98, 0xec, 0xf8,
            0x42, 0x7e] ∧
      (pg_md5_encrypt md5_of_empty [] [] 0 (List.replicate 36 0)).hash
        ≠ List.replicate 16 0 := by
  refine ⟨?_, by decide, by decide⟩
  intro md5 part1 part2 part2len dest
  have hdl : (digest md5 part1 part2 part2len).length = 16 := md5.final_length _
  show memset (digest md5 part1 part2 part2len) 0 sizeof_uint8 = _
  unfold memset sizeof_uint8
  rw [hdl]
  rfl

/-! ## `get_random_bytes` -/

theorem get_random_bytes_loop_spec (rnd : Nat → Nat) :
    ∀ (n i calls : Nat) (dest : List Nat), i + n ≤ dest.length →
      (get_random_bytes_loop rnd n i calls dest).2 = calls + n ∧
      (get_random_bytes_loop rnd n i calls dest).1.length = dest.length ∧
      (∀ j, j < i ∨ i + n ≤ j → (get_random_bytes_loop rnd n i calls dest).1[j]? = dest[j]?) ∧
      (∀ t, t < n →
        (get_random_bytes_loop rnd n i calls dest).1[i + t]? = some (rnd (calls + t) &&& 255)) := by
  intro n
  induction n with
  | zero =>
    intro i calls dest _
    simp [get_random_bytes_loop]
  | succ n ih =>
    intro i calls dest hlen
    simp only [get_random_bytes_loop]
    obtain ⟨h1, h2, h3, h4⟩ := ih (i + 1) (calls + 1) (dest.set i (rnd calls &&& 255))
      (by simp only [List.length_set]; omega)
    refine ⟨by omega, by rw [h2]; simp only [List.length_set], ?_, ?_⟩
    · intro j hj
      rw [h3 j (by omega), List.getElem?_set_ne (by omega)]
    · intro t ht
      cases t with
      | zero =>
        simp only [Nat.add_zero]
        rw [h3 i (by omega), List.getElem?_set_self (by omega)]
      | succ t =>
        have e1 : i + (t + 1) = i + 1 + t := by omega
        have e2 : calls + (t + 1) = calls + 1 + t := by omega
        rw [e1, e2]
        exact h4 t (by omega)

/-- C7 (as the code has it): for every length `len >= 0` that fits the buffer,
`get_random_bytes(dest, len)` writes exactly the bytes `dest[0..len-1]`, each the
low eight bits of one `random()` call and so in `0..255`, leaves every byte at
index `>= len` unchanged, and returns `len` converted to `bool`: 1 when
`len > 0` and 0 when `len = 0`. -/
theorem get_random_bytes_fills (rnd : Nat → Nat) (calls : Nat) (dest : List Nat) (len : Nat)
    (hlen : len ≤ dest.length) :
    (get_random_bytes rnd calls dest (len : Int)).dest.length = dest.length ∧
      (∀ i, i < len →
        (get_random_bytes rnd calls dest (len : Int)).dest[i]? = some (rnd (calls + i) &&& 255) ∧
          rnd (calls + i) &&& 255 < 256) ∧
      (∀ i, len ≤ i → (get_random_bytes rnd calls dest (len : Int)).dest[i]? = dest[i]?) ∧
      (get_random_bytes rnd calls dest (len : Int)).calls = calls + len ∧
      (get_random_bytes rnd calls dest (len : Int)).ret = if len = 0 then 0 else 1 := by
  obtain ⟨h1, h2, h3, h4⟩ := get_random_bytes_loop_spec rnd len 0 calls dest (by omega)
  simp only [get_random_bytes, Int.toNat_ofNat]
  refine ⟨h2, ?_, ?_, h1, ?_⟩
  · intro i hi
    have := h4 i hi
    rw [Nat.zero_add] at this
    exact ⟨this, Nat.lt_succ_of_le Nat.and_le_right⟩
  · intro i hi
    exact h3 i (by omega)
  · unfold int_to_bool
    by_cases h0 : len = 0
    · simp [h0]
    · simp [h0]

/-- C7 (as the code has it) with two bytes drawn into a buffer of three. -/
theorem get_random_bytes_fills_witness :
    2 ≤ ([9, 9, 9] : List Nat).length ∧
      (get_random_bytes (fun k => 300 + k) 0 [9, 9, 9] ((2 : Nat) : Int)).dest.length
        = ([9, 9, 9] : List Nat).length ∧
      (get_random_bytes (fun k => 300 + k) 0 [9, 9, 9] ((2 : Nat) : Int)).ret
        = if (2 : Nat) = 0 then 0 else 1 :=
  ⟨by decide,
    (get_random_bytes_fills (fun k => 300 + k) 0 [9, 9, 9] 2 (by decide)).1,
    (get_random_bytes_fills (fun k => 300 + k) 0 [9, 9, 9] 2 (by decide)).2.2.2.2⟩

/-- C7 as stated fails: asked for two bytes, `get_random_bytes` writes two bytes
and returns 1 (true), not the count 2. -/
theorem get_random_bytes_returns_bool :
    (get_random_bytes (fun k => 300 + k) 0 [9, 9, 9] 2).dest = [44, 45, 9] ∧
      (get_random_bytes (fun k => 300 + k) 0 [9, 9, 9] 2).ret = 1 ∧
      (get_random_bytes (fun k => 300 + k) 0 [9, 9, 9] 2).ret ≠ 2 := by
  decide

/-! ## `load_file` -/

/-- Whatever number of bytes `read` reports, short of the file size or not,
`load_file` hands out the block with the terminator at offset `st_size`. -/
theorem load_file_accepts_any_read (env : LoadEnv) (fn bufp : Nat) (w : World)
    (buf : List Nat) (r c : SysRes) (rest : List SysRes)
    (hstat : 0 ≤ env.stat_res.res) (hblock : env.block = some buf)
    (hopen : 0 ≤ env.open_res.res) (hw : w.script = r :: c :: rest)
    (hr : 0 ≤ r.res) (hc : 0 ≤ c.res) :
    ∃ w1, load_file env fn bufp w = .ret (some ((store buf r.data).set env.st_size 0)) w1 := by
  have h1 : ¬ env.stat_res.res < 0 := not_lt.mpr hstat
  have h2 : ¬ env.open_res.res < 0 := not_lt.mpr hopen
  have h3 : ¬ r.res < 0 := not_lt.mpr hr
  have h4 : ¬ c.res < 0 := not_lt.mpr hc
  simp only [load_file, hblock, if_neg h1, if_neg h2, safe_read, sys, hw, safe_read_loop,
    Outcome.bind, safe_close, safe_close_loop, h3, h4, false_and, if_false]
  exact ⟨_, rfl⟩

/-- C8 fails on the code: for a five-byte file "hello" whose `read` returns 2,
`load_file` does not return NULL; it returns a block whose first five bytes are
"he" followed by three bytes `malloc` left there, and a terminator. -/
theorem load_file_short_read :
    (∃ w1, load_file env_hello 1 2 world_short_read
        = .ret (some [104, 101, 170, 170, 170, 0]) w1) ∧
      ([104, 101, 170, 170, 170, 0] : List Nat).take 5 ≠ bytes "hello" := by
  constructor
  · exact ⟨_, rfl⟩
  · decide

/-! ## `tune_socket` -/

theorem fatal_perror_returns (line : Int) (func fmt : String) (w : World) :
    ∃ w1, fatal_perror line func fmt w = .ret () w1 :=
  ⟨_, rfl⟩

theorem running_bind {α β : Type} (o : Outcome α) (f : α → World → Outcome β)
    (ho : o.running) (hf : ∀ a w, (f a w).running) : (o.bind f).running := by
  cases o with
  | ret a w => exact hf a w
  | blocked w => trivial
  | exited s w => exact ho.elim

theorem running_syscall (c : Call) (w : World) : (syscall c w).running := by
  unfold syscall
  split <;> trivial

theorem running_ret {α : Type} (a : α) (w : World) : (Outcome.ret a w).running := trivial

theorem running_fatal_perror (line : Int) (func fmt : String) (w : World) :
    (fatal_perror line func fmt w).running := by
  obtain ⟨w1, h⟩ := fatal_perror_returns line func fmt w
  rw [h]
  trivial

theorem running_ite {α : Type} (p : Prop) [Decidable p] (a b : Outcome α) (ha : a.running)
    (hb : b.running) : (if p then a else b).running := by
  split
  · exact ha
  · exact hb

theorem running_setsockopt_or_fatal (sock : Int) (opt : SockOpt) (val line : Int)
    (msg : String) (w : World) : (setsockopt_or_fatal sock opt val line msg w).running := by
  unfold setsockopt_or_fatal
  exact running_bind _ _ (running_syscall _ _)
    (fun _ _ => running_ite _ _ _ (running_fatal_perror _ _ _ _) (running_ret _ _))

theorem running_socket_set_nonblocking (pf : Platform) (fd val : Int) (w : World) :
    (socket_set_nonblocking pf fd val w).running := by
  unfold socket_set_nonblocking
  refine running_bind _ _ (running_syscall _ _) (fun r w1 => ?_)
  refine running_bind _ _ (running_ite _ _ _ (running_fatal_perror _ _ _ _) (running_ret _ _))
    (fun _ w2 => ?_)
  exact running_bind _ _ (running_syscall _ _)
    (fun _ _ => running_ite _ _ _ (running_fatal_perror _ _ _ _) (running_ret _ _))

theorem running_tune_keepalive (pf : Platform) (sock : Int) (w : World) :
    (tune_keepalive pf sock w).running := by
  unfold tune_keepalive
  refine running_bind _ _ (running_setsockopt_or_fatal _ _ _ _ _ _) (fun _ w1 => ?_)
  refine running_ite _ _ _ ?_ (running_ite _ _ _ (running_ite _ _ _
    (running_setsockopt_or_fatal _ _ _ _ _ _) (running_ret _ _)) (running_ret _ _))
  refine running_bind _ _ (running_ite _ _ _ (running_setsockopt_or_fatal _ _ _ _ _ _)
    (running_ret _ _)) (fun _ w2 => ?_)
  refine running_bind _ _ (running_ite _ _ _ (running_setsockopt_or_fatal _ _ _ _ _ _)
    (running_ret _ _)) (fun _ w3 => ?_)
  exact running_ite _ _ _ (running_setsockopt_or_fatal _ _ _ _ _ _) (running_ret _ _)

/-- Nothing in `tune_socket` ends the process. -/
theorem running_tune_socket (pf : Platform) (sock : Int) (is_unix : Bool) (w : World) :
    (tune_socket pf sock is_unix w).running := by
  unfold tune_socket
  refine running_bind _ _ (running_syscall _ _) (fun r w1 => ?_)
  refine running_bind _ _ (running_ite _ _ _ (running_fatal_perror _ _ _ _) (running_ret _ _))
    (fun _ w2 => ?_)
  refine running_bind _ _ (running_socket_set_nonblocking _ _ _ _) (fun _ w3 => ?_)
  refine running_bind _ _ (running_ite _ _ _ (running_setsockopt_or_fatal _ _ _ _ _ _)
    (running_ret _ _)) (fun _ w4 => ?_)
  refine running_ite _ _ _ (running_ret _ _) ?_
  refine running_bind _ _ (running_ite _ _ _ (running_tune_keepalive _ _ _) (running_ret _ _))
    (fun _ w5 => ?_)
  refine running_bind _ _ (running_ite _ _ _ ?_ (running_ret _ _)) (fun _ w7 => ?_)
  · exact running_bind _ _ (running_setsockopt_or_fatal _ _ _ _ _ _)
      (fun _ _ => running_setsockopt_or_fatal _ _ _ _ _ _)
  · exact running_setsockopt_or_fatal _ _ _ _ _ _

/-- C9 fails on the code: `_fatal_perror` passes `do_exit = false`, so no failing
step ends the process.  When the kernel rejects the first step, `fcntl(F_SETFD)`,
of a Unix-domain socket, `tune_socket` logs the FATAL line and goes on to
`fcntl(F_GETFL)` and `fcntl(F_SETFL)`, then returns to its caller; and for no
socket, policy or kernel does `tune_socket` end in a process exit. -/
theorem tune_socket_continues_after_failure :
    (tune_socket linux 5 true world_rejecting_cloexec).world.trace
        = [Event.call (Call.fcntl 5 FcntlCmd.F_SETFD 1),
            Event.log "FATAL" "@%s:%d in function %s(): %s"
              [LogArg.str "util.c", LogArg.num 396, LogArg.str "tune_socket",
                LogArg.str "%s: %s", LogArg.str "fcntl FD_CLOEXEC", LogArg.strerror EBADF],
            Event.call (Call.fcntl 5 FcntlCmd.F_GETFL 0),
            Event.call (Call.fcntl 5 FcntlCmd.F_SETFL 2050)] ∧
      (∃ w1, tune_socket linux 5 true world_rejecting_cloexec = .ret () w1) ∧
      ∀ (pf : Platform) (sock : Int) (is_unix : Bool) (w : World) (status : Int) (w1 : World),
        tune_socket pf sock is_unix w ≠ .exited status w1 := by
  refine ⟨rfl, ⟨_, rfl⟩, ?_⟩
  intro pf sock is_unix w status w1 h
  have := running_tune_socket pf sock is_unix w
  rw [h] at this
  exact this

end PgBouncer
